import Mathlib

/-! # eclib: tiered pooling allocator, growable buffer and protocol engine

A shallow embedding of `src/ec/c11_memory.h` (classes `ec::memory` and
`ec::auto_buffer`) and of the protocol engine of `src/ec/c_wss.h` (class
`cHttpsWorkThread`: outbound framing, handshake, HTTP handling and the dispatch
loop), followed by theorems about them.

Conventions of the embedding

* The target is a 64-bit one: `size_t` is 64 bits wide and `sizeof(size_t) = 8`.
  Values of type `size_t` are natural numbers, and every arithmetic operation
  the source performs on `size_t` is reduced modulo `SIZE_T_RANGE = 2 ^ 64`.
* A pointer is its address (a natural number); `0` is `nullptr`.
* The C heap (`::malloc`, `::free`) is an explicit value of type `Heap`: it
  carries the results the following `::malloc` calls are going to produce (so
  that every allocation may succeed or fail arbitrarily) and a log of the calls
  made so far.
* The optional mutex of `ec::memory` only serialises calls; the embedding is
  sequential and leaves it out.
-/

namespace ec

/-! ## Machine model -/

/-- An address, as obtained by the cast `(size_t)p`; `0` is `nullptr`. -/
abbrev Ptr := Nat

/-- The number of values of `size_t` (64-bit target), `2 ^ 64`. -/
abbrev SIZE_T_RANGE : Nat := 18446744073709551616

/-- The value of `sizeof(size_t)` (64-bit target). -/
abbrev SIZEOF_SIZE_T : Nat := 8

/-- One call made to the C heap. -/
inductive HeapCall where
  | malloc (size : Nat) (result : Ptr)
  | free (p : Ptr)
  deriving DecidableEq, Repr

/-- The C heap as seen by the program: `answers` are the results of the
`::malloc` calls still to come, in order (`0` is a failed allocation, and an
exhausted list fails every further allocation); `calls` is the log of the calls
made so far, the most recent first. -/
structure Heap where
  answers : List Ptr
  calls : List HeapCall
  deriving DecidableEq, Repr

/-- The call `::malloc(size)`: the returned pointer and the heap afterwards. -/
def Heap.sys_malloc (h : Heap) (size : Nat) : Ptr × Heap :=
  match h.answers with
  | [] => (0, { answers := [], calls := HeapCall.malloc size 0 :: h.calls })
  | p :: rest => (p, { answers := rest, calls := HeapCall.malloc size p :: h.calls })

/-- The call `::free(p)`. -/
def Heap.sys_free (h : Heap) (p : Ptr) : Heap :=
  { h with calls := HeapCall.free p :: h.calls }

/-! ## `ec::stack<void*>` -/

/-- Modelled from the spec: the class template `ec::stack` (header
`c11_stack.h`, which is not among the sources). The spec describes the free
stack of a tier as a "bounded stack of block addresses" whose "depth never
exceeds `block_count`"; the allocator constructs it with the block count of the
tier as its capacity. `items` lists the stored addresses, the top first. -/
structure stack where
  capacity : Nat
  items : List Ptr
  deriving DecidableEq, Repr

/-- Modelled from the spec: the constructor `ec::stack(capacity)`, an empty
stack bounded by `capacity`. -/
def stack.init (capacity : Nat) : stack :=
  { capacity := capacity, items := [] }

/-- Modelled from the spec: `ec::stack::push`, which stores `v` on top unless
the stack is at its bound, in which case the stack is left as it is. -/
def stack.push (s : stack) (v : Ptr) : stack :=
  if s.items.length < s.capacity then { s with items := v :: s.items } else s

/-- Modelled from the spec: `ec::stack::add`, the same bounded insertion on top
as `push`. -/
def stack.add (s : stack) (v : Ptr) : stack :=
  s.push v

/-- Modelled from the spec: `ec::stack::pop`, which removes and hands out the
top address, or reports `none` (the C++ `false`) on an empty stack. -/
def stack.pop (s : stack) : Option (Ptr × stack) :=
  match s.items with
  | [] => none
  | v :: rest => some (v, { s with items := rest })

/-! ## `ec::memory` -/

/-- The data members of `ec::memory` (without the mutex). -/
structure memory where
  _ps : Ptr
  _pm : Ptr
  _pl : Ptr
  _sz_s : Nat
  _sz_m : Nat
  _sz_l : Nat
  _blk_s : Nat
  _blk_m : Nat
  _blk_l : Nat
  _stks : stack
  _stkm : stack
  _stkl : stack
  deriving DecidableEq, Repr

/-- The loop of `malloc_block`,
`for (i = 0; i < blknum; i++) stk.add(p + (blknum - 1 - i) * blksize);`
with the pointer arithmetic taken modulo `2 ^ 64`. -/
def malloc_block_loop (blksize blknum : Nat) (p : Ptr) (stk : stack) : stack :=
  (List.range blknum).foldl
    (fun s i => s.add ((p + (blknum - 1 - i) * blksize) % SIZE_T_RANGE)) stk

/-- The method `memory::malloc_block(blksize, blknum, ph, stk)`: the returned flag, and
the values of the reference parameters `ph` and `stk` and the heap afterwards. -/
def malloc_block (blksize blknum : Nat) (ph : Ptr) (stk : stack) (h : Heap) :
    Bool × Ptr × stack × Heap :=
  if blknum = 0 ∨ blksize = 0 then (false, ph, stk, h)
  else
    let r := h.sys_malloc (blksize * blknum % SIZE_T_RANGE)
    if r.1 ≠ 0 then (true, r.1, malloc_block_loop blksize blknum r.1 stk, r.2)
    else (false, r.1, stk, r.2)

/-- The rounding the constructor applies to each of the three block sizes:
`sz = blksize; if (sz % (sizeof(size_t) * 2)) sz += (sizeof(size_t) * 2) - blksize % (sizeof(size_t) * 2);` -/
def round_blksize (blksize : Nat) : Nat :=
  if blksize % (SIZEOF_SIZE_T * 2) ≠ 0 then
    (blksize + ((SIZEOF_SIZE_T * 2) - blksize % (SIZEOF_SIZE_T * 2))) % SIZE_T_RANGE
  else blksize

/-- The constructor
`memory(sblksize, sblknum, mblksize, mblknum, lblksize, lblknum)`: the small
arena is requested at once, the medium and large ones are left absent. -/
def memory.construct (sblksize sblknum mblksize mblknum lblksize lblknum : Nat)
    (h : Heap) : memory × Heap :=
  let b := malloc_block (round_blksize sblksize) sblknum 0 (stack.init sblknum) h
  ({ _ps := b.2.1, _pm := 0, _pl := 0,
     _sz_s := round_blksize sblksize,
     _sz_m := round_blksize mblksize,
     _sz_l := round_blksize lblksize,
     _blk_s := sblknum, _blk_m := mblknum, _blk_l := lblknum,
     _stks := b.2.2.1, _stkm := stack.init mblknum, _stkl := stack.init lblknum },
   b.2.2.2)

/-- The method `memory::mem_malloc(size)`: the returned pointer, the allocator and the
heap afterwards. -/
def memory.mem_malloc (m : memory) (h : Heap) (size : Nat) : Ptr × memory × Heap :=
  if size ≤ m._sz_s then
    match m._stks.pop with
    | some (pr, stk) => (pr, { m with _stks := stk }, h)
    | none => ((h.sys_malloc size).1, m, (h.sys_malloc size).2)
  else if size ≤ m._sz_m then
    let b := if m._pm = 0 then malloc_block m._sz_m m._blk_m m._pm m._stkm h
             else (true, m._pm, m._stkm, h)
    let m1 : memory := { m with _pm := b.2.1, _stkm := b.2.2.1 }
    match m1._stkm.pop with
    | some (pr, stk) => (pr, { m1 with _stkm := stk }, b.2.2.2)
    | none => ((b.2.2.2.sys_malloc size).1, m1, (b.2.2.2.sys_malloc size).2)
  else if size ≤ m._sz_l then
    let b := if m._pl = 0 then malloc_block m._sz_l m._blk_l m._pl m._stkl h
             else (true, m._pl, m._stkl, h)
    let m1 : memory := { m with _pl := b.2.1, _stkl := b.2.2.1 }
    match m1._stkl.pop with
    | some (pr, stk) => (pr, { m1 with _stkl := stk }, b.2.2.2)
    | none => ((b.2.2.2.sys_malloc size).1, m1, (b.2.2.2.sys_malloc size).2)
  else ((h.sys_malloc size).1, m, (h.sys_malloc size).2)

/-- The method `memory::mem_free(pmem)`: the allocator and the heap afterwards. The end of
each arena range is computed as the source does, in `size_t` arithmetic. -/
def memory.mem_free (m : memory) (h : Heap) (pmem : Ptr) : memory × Heap :=
  if pmem = 0 then (m, h)
  else if m._ps ≠ 0 ∧ pmem ≥ m._ps ∧
      pmem < (m._ps + m._sz_s * m._blk_s % SIZE_T_RANGE) % SIZE_T_RANGE then
    ({ m with _stks := m._stks.push pmem }, h)
  else if m._pm ≠ 0 ∧ pmem ≥ m._pm ∧
      pmem < (m._pm + m._sz_m * m._blk_m % SIZE_T_RANGE) % SIZE_T_RANGE then
    ({ m with _stkm := m._stkm.push pmem }, h)
  else if m._pl ≠ 0 ∧ pmem ≥ m._pl ∧
      pmem < (m._pl + m._sz_l * m._blk_l % SIZE_T_RANGE) % SIZE_T_RANGE then
    ({ m with _stkl := m._stkl.push pmem }, h)
  else (m, h.sys_free pmem)

/-- The method `memory::malloc(size, outsize)`: the returned pointer, the value stored in
the reference parameter `outsize`, the allocator and the heap afterwards. -/
def memory.malloc (m : memory) (h : Heap) (size : Nat) : Ptr × Nat × memory × Heap :=
  let heap_path (m1 : memory) (h1 : Heap) : Ptr × Nat × memory × Heap :=
    let r := h1.sys_malloc size
    if r.1 = 0 then (r.1, 0, m1, r.2) else (r.1, size, m1, r.2)
  if size ≤ m._sz_s then
    match m._stks.pop with
    | some (pr, stk) => (pr, m._sz_s, { m with _stks := stk }, h)
    | none => heap_path m h
  else if size ≤ m._sz_m then
    let b := if m._pm = 0 then malloc_block m._sz_m m._blk_m m._pm m._stkm h
             else (true, m._pm, m._stkm, h)
    let m1 : memory := { m with _pm := b.2.1, _stkm := b.2.2.1 }
    match m1._stkm.pop with
    | some (pr, stk) => (pr, m._sz_m, { m1 with _stkm := stk }, b.2.2.2)
    | none => heap_path m1 b.2.2.2
  else if size ≤ m._sz_l then
    let b := if m._pl = 0 then malloc_block m._sz_l m._blk_l m._pl m._stkl h
             else (true, m._pl, m._stkl, h)
    let m1 : memory := { m with _pl := b.2.1, _stkl := b.2.2.1 }
    match m1._stkl.pop with
    | some (pr, stk) => (pr, m._sz_l, { m1 with _stkl := stk }, b.2.2.2)
    | none => heap_path m1 b.2.2.2
  else heap_path m h

/-! ## `ec::auto_buffer` -/

/-- The data members of `ec::auto_buffer`. The member `_pmem` is a pointer to a
shared allocator: it is `none` for `nullptr`, and otherwise holds the current
state of the allocator it points to. -/
structure auto_buffer where
  _pmem : Option memory
  _pbuf : Ptr
  _size : Nat
  _sizebuf : Nat
  deriving DecidableEq, Repr

/-- The constructor `auto_buffer(pmem)`. -/
def auto_buffer.construct (pmem : Option memory) : auto_buffer :=
  { _pmem := pmem, _pbuf := 0, _size := 0, _sizebuf := 0 }

/-- The accessor `auto_buffer::data()`. -/
def auto_buffer.data (b : auto_buffer) : Ptr := b._pbuf

/-- The accessor `auto_buffer::size()`. -/
def auto_buffer.size (b : auto_buffer) : Nat := b._size

/-- The method `auto_buffer::clear()`: the buffer and the heap afterwards. -/
def auto_buffer.clear (b : auto_buffer) (h : Heap) : auto_buffer × Heap :=
  if b._pbuf ≠ 0 then
    match b._pmem with
    | some m =>
      ({ _pmem := some (m.mem_free h b._pbuf).1, _pbuf := 0, _size := 0, _sizebuf := 0 },
       (m.mem_free h b._pbuf).2)
    | none =>
      ({ _pmem := none, _pbuf := 0, _size := 0, _sizebuf := 0 }, h.sys_free b._pbuf)
  else (b, h)

/-- The method `auto_buffer::resize(rsz)`: the returned pointer, the buffer and the heap
afterwards. The statements are taken in the order of the source: `_size = rsz`
comes first, `clear()` runs on the buffer so updated, and the heap branch
requests `_size` bytes, the value `clear()` has left in that member. -/
def auto_buffer.resize (b : auto_buffer) (h : Heap) (rsz : Nat) : Ptr × auto_buffer × Heap :=
  let b1 : auto_buffer := { b with _size := rsz }
  if b1._size > b1._sizebuf then
    let c := b1.clear h
    let b2 := c.1
    let a : auto_buffer × Heap :=
      match b2._pmem with
      | some m =>
        let r := m.malloc c.2 rsz
        ({ b2 with _pmem := some r.2.2.1, _pbuf := r.1, _sizebuf := r.2.1 }, r.2.2.2)
      | none =>
        let r := c.2.sys_malloc b2._size
        ({ b2 with _pbuf := r.1, _sizebuf := b2._size }, r.2)
    let b3 := a.1
    let b4 : auto_buffer :=
      if b3._pbuf = 0 then { b3 with _pbuf := 0, _size := 0, _sizebuf := 0 } else b3
    (b4._pbuf, b4, a.2)
  else (b1._pbuf, b1, h)

/-- The calls a client may make on an `auto_buffer`. -/
inductive BufferCall where
  | resize (rsz : Nat)
  | clear
  deriving DecidableEq, Repr

/-- One call on a buffer: the buffer and the heap afterwards. -/
def auto_buffer.call (s : auto_buffer × Heap) : BufferCall → auto_buffer × Heap
  | BufferCall.resize rsz => ((s.1.resize s.2 rsz).2.1, (s.1.resize s.2 rsz).2.2)
  | BufferCall.clear => s.1.clear s.2

/-- A sequence of calls on a buffer, the first call of the list first. -/
def auto_buffer.run (calls : List BufferCall) (s : auto_buffer × Heap) : auto_buffer × Heap :=
  calls.foldl auto_buffer.call s

/-! ## Vocabulary of the specification for the allocator -/

/-- The three tiers of the allocator, in the order in which they are tried. -/
inductive Tier where
  | small
  | medium
  | large
  deriving DecidableEq, Repr

/-- The (rounded) block size of a tier. -/
def memory.block_size (m : memory) : Tier → Nat
  | Tier.small => m._sz_s
  | Tier.medium => m._sz_m
  | Tier.large => m._sz_l

/-- The block count of a tier. -/
def memory.block_count (m : memory) : Tier → Nat
  | Tier.small => m._blk_s
  | Tier.medium => m._blk_m
  | Tier.large => m._blk_l

/-- The base address of the arena of a tier; `0` while the arena is absent. -/
def memory.arena (m : memory) : Tier → Ptr
  | Tier.small => m._ps
  | Tier.medium => m._pm
  | Tier.large => m._pl

/-- The free stack of a tier. -/
def memory.free_stack (m : memory) : Tier → stack
  | Tier.small => m._stks
  | Tier.medium => m._stkm
  | Tier.large => m._stkl

/-- The allocator with the free stack of one tier replaced. -/
def memory.set_free_stack (m : memory) (t : Tier) (s : stack) : memory :=
  match t with
  | Tier.small => { m with _stks := s }
  | Tier.medium => { m with _stkm := s }
  | Tier.large => { m with _stkl := s }

/-- The tier selected for a request, in the words of the spec: the first tier,
in the order small, medium, large, whose block size is at least `size`; `none`
when `size` exceeds the large block size. -/
def memory.selected_tier (m : memory) (size : Nat) : Option Tier :=
  [Tier.small, Tier.medium, Tier.large].find? (fun t => decide (size ≤ m.block_size t))

/-- Materialisation of the arena of a selected tier, in the words of the spec:
nothing happens for the small tier or when the arena is present; otherwise the
arena of the tier is requested by `malloc_block`. -/
def memory.materialise (m : memory) (h : Heap) : Tier → memory × Heap
  | Tier.small => (m, h)
  | Tier.medium =>
    if m._pm = 0 then
      ({ m with _pm := (malloc_block m._sz_m m._blk_m m._pm m._stkm h).2.1,
                _stkm := (malloc_block m._sz_m m._blk_m m._pm m._stkm h).2.2.1 },
       (malloc_block m._sz_m m._blk_m m._pm m._stkm h).2.2.2)
    else (m, h)
  | Tier.large =>
    if m._pl = 0 then
      ({ m with _pl := (malloc_block m._sz_l m._blk_l m._pl m._stkl h).2.1,
                _stkl := (malloc_block m._sz_l m._blk_l m._pl m._stkl h).2.2.1 },
       (malloc_block m._sz_l m._blk_l m._pl m._stkl h).2.2.2)
    else (m, h)

/-- The arena of tier `t` is materialised and its range, whose end
`base + block_size * block_count` is computed in `size_t` arithmetic as the
source does, contains the address `p`. -/
def memory.in_range (m : memory) (t : Tier) (p : Ptr) : Prop :=
  m.arena t ≠ 0 ∧ m.arena t ≤ p ∧
    p < (m.arena t + m.block_size t * m.block_count t % SIZE_T_RANGE) % SIZE_T_RANGE

instance (m : memory) (t : Tier) (p : Ptr) : Decidable (m.in_range t p) := by
  unfold memory.in_range
  exact inferInstance

/-- The tier that claims a released pointer, in the words of the spec: the
first tier, in the order small, medium, large, whose range contains `p`. -/
def memory.owner (m : memory) (p : Ptr) : Option Tier :=
  [Tier.small, Tier.medium, Tier.large].find? (fun t => decide (m.in_range t p))

/-! ## `cHttpsWorkThread::MakeWsSend` -/

/-- The method `cHttpsWorkThread::MakeWsSend(pdata, size, wsopt, pout)`: the returned flag
and the contents of `*pout` afterwards. The payload `(pdata, size)` is the list
`pdata` of its bytes with `size = pdata.length`; a `char` is its value modulo
`256`; the output array `tArray<char>` (declared in a header that is not among
the sources) is the list of its bytes, `ClearData` empties it and `Add` appends
to it. The local `uc` is an `unsigned char`; the second test of the length
encoding reads `uc`, as in the source. -/
def MakeWsSend (pdata : List Nat) (wsopt : Nat) : Bool × List Nat :=
  let size := pdata.length
  let uc : Nat := (0x80 ||| (0x0F &&& wsopt)) % 256
  let pout : List Nat := [uc % 256]
  let pout : List Nat :=
    if size < 126 then
      pout ++ [(size % 256) % 256]
    else if uc < 65536 then
      pout ++ [126 % 256] ++ [((size &&& 0xFF00) >>> 8) % 256] ++ [(size &&& 0xFF) % 256]
    else
      pout ++ [127 % 256] ++ [0, 0, 0, 0]
        ++ [((size &&& 0xFF000000) >>> 24) % 256]
        ++ [((size &&& 0x00FF0000) >>> 16) % 256]
        ++ [((size &&& 0x0000FF00) >>> 8) % 256]
        ++ [(size &&& 0xFF) % 256]
  (true, pout ++ pdata)

/-! ## Invariants and example states -/

/-- The invariant of `auto_buffer`: the logical size does not exceed the backing
capacity, and a buffer without a backing region has size and capacity zero. -/
def auto_buffer.inv (b : auto_buffer) : Prop :=
  b._size ≤ b._sizebuf ∧ (b._pbuf = 0 → b._size = 0 ∧ b._sizebuf = 0)

/-- An example allocator, `memory(64, 2, 1024, 2)`, constructed on a heap whose
next two allocations are going to return the addresses 65536 and 131072. -/
def example_memory : memory × Heap :=
  memory.construct 64 2 1024 2 0 0 { answers := [65536, 131072], calls := [] }

/-! ## Runs of the allocator -/

/-- The calls a client may make on a constructed `ec::memory`. -/
inductive MemCall where
  | mem_malloc (size : Nat)
  | malloc (size : Nat)
  | mem_free (pmem : Ptr)
  deriving DecidableEq, Repr

/-- The pointer a call returns: the allocated pointer for `mem_malloc` and
`malloc`, and `0` for `mem_free`, which returns nothing. -/
def memory.call_result (s : memory × Heap) : MemCall → Ptr
  | MemCall.mem_malloc size => (s.1.mem_malloc s.2 size).1
  | MemCall.malloc size => (s.1.malloc s.2 size).1
  | MemCall.mem_free _ => 0

/-- One call on an allocator: the allocator and the heap afterwards. -/
def memory.call (s : memory × Heap) : MemCall → memory × Heap
  | MemCall.mem_malloc size => (s.1.mem_malloc s.2 size).2
  | MemCall.malloc size => (s.1.malloc s.2 size).2.2
  | MemCall.mem_free pmem => s.1.mem_free s.2 pmem

/-- A sequence of calls on an allocator, the first call of the list first. -/
def memory.run (calls : List MemCall) (s : memory × Heap) : memory × Heap :=
  calls.foldl memory.call s

/-- The allocator and heap reached by constructing
`memory(sblksize, sblknum, mblksize, mblknum, lblksize, lblknum)` on the heap
`h` and then making the calls `calls`. -/
def memory.reached (sblksize sblknum mblksize mblknum lblksize lblknum : Nat) (h : Heap)
    (calls : List MemCall) : memory × Heap :=
  memory.run calls (memory.construct sblksize sblknum mblksize mblknum lblksize lblknum h)

/-- The address `x` lies in the arena of tier `t`, the interval
`[arena, arena + block_size * block_count)` of natural numbers. -/
def memory.in_arena (m : memory) (t : Tier) (x : Ptr) : Prop :=
  m.arena t ≤ x ∧ x < m.arena t + m.block_size t * m.block_count t

instance (m : memory) (t : Tier) (x : Ptr) : Decidable (m.in_arena t x) := by
  unfold memory.in_arena
  exact inferInstance

/-- The arena of tier `t`, if materialised, is a region of the address space:
its end `arena + block_size * block_count` is an address below `2 ^ 64`. This
fails when the product overflows `size_t`, or when the heap has handed out a
region that runs past the end of the address space. -/
def memory.arena_fits (m : memory) (t : Tier) : Prop :=
  m.arena t + m.block_size t * m.block_count t < SIZE_T_RANGE

instance (m : memory) (t : Tier) : Decidable (m.arena_fits t) := by
  unfold memory.arena_fits
  exact inferInstance

/-- The tier is enabled: its block size and its block count are non-zero. -/
def memory.enabled (m : memory) (t : Tier) : Prop :=
  m.block_size t ≠ 0 ∧ m.block_count t ≠ 0

instance (m : memory) (t : Tier) : Decidable (m.enabled t) := by
  unfold memory.enabled
  exact inferInstance

/-- The value `r` is the least multiple of `2 * sizeof(size_t)` that is at
least `s`; it is `s` itself when `s` is such a multiple, and exceeds `s` by less
than `2 * sizeof(size_t)`. -/
def rounds_up (s r : Nat) : Prop :=
  (SIZEOF_SIZE_T * 2) ∣ r ∧ s ≤ r ∧ (∀ k, (SIZEOF_SIZE_T * 2) ∣ k → s ≤ k → r ≤ k) ∧
    (s % (SIZEOF_SIZE_T * 2) = 0 → r = s) ∧ r < s + SIZEOF_SIZE_T * 2

/-- The invariant of the free stacks: the free stack of a tier without arena is
empty, and every address on the free stack of a tier whose arena is a region of
the address space lies in that arena. -/
def memory.stacks_in_arena (m : memory) : Prop :=
  ∀ t, (m.arena t = 0 → (m.free_stack t).items = []) ∧
    (m.arena_fits t → ∀ x ∈ (m.free_stack t).items, m.in_arena t x)

/-- Every free stack respects its bound. -/
def memory.stacks_bounded (m : memory) : Prop :=
  ∀ t, (m.free_stack t).items.length ≤ (m.free_stack t).capacity

/-- The state of a disabled tier: its block size or block count is zero, it has
no arena and its free stack is empty. -/
def memory.disabled_empty (t : Tier) (m : memory) : Prop :=
  (m.block_size t = 0 ∨ m.block_count t = 0) ∧ m.arena t = 0 ∧ (m.free_stack t).items = []

/-- The size an allocating call requests; `none` for `mem_free`. -/
def MemCall.alloc_size : MemCall → Option Nat
  | MemCall.mem_malloc size => some size
  | MemCall.malloc size => some size
  | MemCall.mem_free _ => none

/-- Arena allocations succeed during a sequence of calls: whenever an allocating
call selects the medium or large tier while that tier is enabled and has no
arena, the arena request made to the heap returns a non-null pointer. -/
def memory.arenas_granted : List MemCall → memory × Heap → Prop
  | [], _ => True
  | c :: cs, s =>
    (∀ size, c.alloc_size = some size → ∀ t, s.1.selected_tier size = some t →
      t ≠ Tier.small → s.1.arena t = 0 → s.1.enabled t →
      (s.1.materialise s.2 t).1.arena t ≠ 0) ∧
    memory.arenas_granted cs (memory.call s c)

/-- Whether arena allocations succeed during a run can be computed. -/
def memory.arenas_granted_dec :
    (calls : List MemCall) → (s : memory × Heap) → Decidable (memory.arenas_granted calls s)
  | [], _ => isTrue trivial
  | c :: cs, s =>
    match memory.arenas_granted_dec cs (memory.call s c) with
    | isTrue hr =>
      if hc : (∀ size, c.alloc_size = some size → ∀ t, s.1.selected_tier size = some t →
          t ≠ Tier.small → s.1.arena t = 0 → s.1.enabled t →
          (s.1.materialise s.2 t).1.arena t ≠ 0) then isTrue ⟨hc, hr⟩
      else isFalse (fun hg => hc hg.1)
    | isFalse hr => isFalse (fun hg => hr hg.2)

instance (calls : List MemCall) (s : memory × Heap) :
    Decidable (memory.arenas_granted calls s) :=
  memory.arenas_granted_dec calls s

/-! ## Clients that release only what they hold -/

instance : Fintype Tier :=
  ⟨{Tier.small, Tier.medium, Tier.large}, by intro t; cases t <;> simp⟩

/-- The address `x` is the start of a block of tier `t`: `arena + k * block_size`
for some `k < block_count`. -/
def memory.is_block_start (m : memory) (t : Tier) (x : Ptr) : Prop :=
  ∃ k, k < m.block_count t ∧ x = m.arena t + k * m.block_size t

instance (m : memory) (t : Tier) (x : Ptr) : Decidable (m.is_block_start t x) := by
  unfold memory.is_block_start
  exact inferInstance

/-- The arena ranges of two tiers do not overlap. -/
def memory.arenas_disjoint (m : memory) (t t' : Tier) : Prop :=
  m.arena t + m.block_size t * m.block_count t ≤ m.arena t' ∨
    m.arena t' + m.block_size t' * m.block_count t' ≤ m.arena t

instance (m : memory) (t t' : Tier) : Decidable (m.arenas_disjoint t t') := by
  unfold memory.arenas_disjoint
  exact inferInstance

/-- A client state: the allocator, the heap, and the list of the non-null
pointers that allocations have returned and that have not been released yet. -/
abbrev Client := memory × Heap × List Ptr

/-- One call of a client that keeps track of the pointers it holds. -/
def memory.tracked_call (s : Client) (c : MemCall) : Client :=
  ((memory.call (s.1, s.2.1) c).1, (memory.call (s.1, s.2.1) c).2,
    match c with
    | MemCall.mem_free p => s.2.2.erase p
    | MemCall.mem_malloc size =>
      if (s.1.mem_malloc s.2.1 size).1 = 0 then s.2.2
      else (s.1.mem_malloc s.2.1 size).1 :: s.2.2
    | MemCall.malloc size =>
      if (s.1.malloc s.2.1 size).1 = 0 then s.2.2
      else (s.1.malloc s.2.1 size).1 :: s.2.2)

/-- A sequence of calls of a client, the first call of the list first. -/
def memory.tracked_run (calls : List MemCall) (s : Client) : Client :=
  calls.foldl memory.tracked_call s

/-- The client releases only pointers it holds (or the null pointer, whose
release does nothing): every `mem_free(p)` of the sequence has `p` among the
pointers returned by an earlier allocation and not released since. -/
def memory.disciplined : List MemCall → Client → Prop
  | [], _ => True
  | c :: cs, s =>
    (∀ p, c = MemCall.mem_free p → p = 0 ∨ p ∈ s.2.2) ∧
    memory.disciplined cs (memory.tracked_call s c)

/-- The request is served by the heap: no tier is selected, or the free stack of
the selected tier is empty after the attempt to materialise its arena. -/
def memory.heap_served (m : memory) (h : Heap) (size : Nat) : Prop :=
  ∀ t, m.selected_tier size = some t → ((m.materialise h t).1.free_stack t).items = []

instance (m : memory) (h : Heap) (size : Nat) : Decidable (m.heap_served h size) := by
  unfold memory.heap_served
  exact inferInstance

/-- An arena that the allocating call materialises is fresh memory: it is a
region of the address space, it contains none of the pointers the client holds,
and it overlaps no other arena. -/
def memory.fresh_arena (s : Client) (size : Nat) : Prop :=
  ∀ t, s.1.selected_tier size = some t → s.1.arena t = 0 →
    (s.1.materialise s.2.1 t).1.arena t ≠ 0 →
      (s.1.materialise s.2.1 t).1.arena_fits t ∧
      (∀ q ∈ s.2.2, ¬ (s.1.materialise s.2.1 t).1.in_arena t q) ∧
      (∀ t', t' ≠ t → (s.1.materialise s.2.1 t).1.arena t' ≠ 0 →
        (s.1.materialise s.2.1 t).1.arenas_disjoint t t')

instance (s : Client) (size : Nat) : Decidable (memory.fresh_arena s size) := by
  unfold memory.fresh_arena
  exact inferInstance

/-- A pointer that the heap returns for the request itself is fresh memory: it
is null (the allocation failed), or it is not held by the client already and
lies in no arena. -/
def memory.fresh_result (s : Client) (size : Nat) : Prop :=
  s.1.heap_served s.2.1 size →
    (s.1.mem_malloc s.2.1 size).1 = 0 ∨
    ((s.1.mem_malloc s.2.1 size).1 ∉ s.2.2 ∧
      ∀ t', (s.1.mem_malloc s.2.1 size).2.1.arena t' ≠ 0 →
        ¬ (s.1.mem_malloc s.2.1 size).2.1.in_arena t' (s.1.mem_malloc s.2.1 size).1)

instance (s : Client) (size : Nat) : Decidable (memory.fresh_result s size) := by
  unfold memory.fresh_result
  exact inferInstance

/-- The heap answers one allocating call with fresh memory. -/
def memory.fresh_step (s : Client) (size : Nat) : Prop :=
  memory.fresh_arena s size ∧ memory.fresh_result s size

instance (s : Client) (size : Nat) : Decidable (memory.fresh_step s size) := by
  unfold memory.fresh_step
  exact inferInstance

/-- The heap answers every allocating call of the sequence with fresh memory. -/
def memory.heap_fresh : List MemCall → Client → Prop
  | [], _ => True
  | c :: cs, s =>
    (∀ size, c.alloc_size = some size → memory.fresh_step s size) ∧
    memory.heap_fresh cs (memory.tracked_call s c)

/-- Whether a client releases only what it holds can be computed. -/
def memory.disciplined_dec :
    (calls : List MemCall) → (s : Client) → Decidable (memory.disciplined calls s)
  | [], _ => isTrue trivial
  | c :: cs, s =>
    match memory.disciplined_dec cs (memory.tracked_call s c) with
    | isTrue hr =>
      match c with
      | MemCall.mem_free p =>
        if hc : p = 0 ∨ p ∈ s.2.2 then
          isTrue ⟨fun q hq => (by cases hq; exact hc), hr⟩
        else isFalse (fun hg => hc (hg.1 p rfl))
      | MemCall.mem_malloc size => isTrue ⟨fun q hq => (by cases hq), hr⟩
      | MemCall.malloc size => isTrue ⟨fun q hq => (by cases hq), hr⟩
    | isFalse hr => isFalse (fun hg => hr hg.2)

instance (calls : List MemCall) (s : Client) : Decidable (memory.disciplined calls s) :=
  memory.disciplined_dec calls s

/-- Whether the heap answers with fresh memory during a run can be computed. -/
def memory.heap_fresh_dec :
    (calls : List MemCall) → (s : Client) → Decidable (memory.heap_fresh calls s)
  | [], _ => isTrue trivial
  | c :: cs, s =>
    match memory.heap_fresh_dec cs (memory.tracked_call s c) with
    | isTrue hr =>
      if hc : (∀ size, c.alloc_size = some size → memory.fresh_step s size) then
        isTrue ⟨hc, hr⟩
      else isFalse (fun hg => hc hg.1)
    | isFalse hr => isFalse (fun hg => hr hg.2)

instance (calls : List MemCall) (s : Client) : Decidable (memory.heap_fresh calls s) :=
  memory.heap_fresh_dec calls s

/-- The invariant of a client that releases only what it holds, on a heap that
answers with fresh memory; `out` are the pointers the client holds. A tier
without arena has an empty free stack; an arena is a region of the address space
of an enabled tier; every free stack is a duplicate-free list of block starts; a
held pointer that lies in an arena is a block start of that tier and is not on
its free stack; the held pointers are distinct and non-null; the arenas do not
overlap. -/
def memory.pool_inv (m : memory) (out : List Ptr) : Prop :=
  (∀ t, m.arena t = 0 → (m.free_stack t).items = []) ∧
  (∀ t, m.arena t ≠ 0 → m.arena_fits t ∧ m.enabled t) ∧
  (∀ t, (m.free_stack t).items.Nodup ∧
    ∀ x ∈ (m.free_stack t).items, m.is_block_start t x) ∧
  (∀ t, ∀ q ∈ out, m.arena t ≠ 0 → m.in_arena t q →
    m.is_block_start t q ∧ q ∉ (m.free_stack t).items) ∧
  (out.Nodup ∧ 0 ∉ out) ∧
  (∀ t t', t ≠ t' → m.arena t ≠ 0 → m.arena t' ≠ 0 → m.arenas_disjoint t t')

/-! ## `cHttpsWorkThread`: the protocol engine

C strings and byte buffers are lists of byte values; `cstr` gives the bytes of
a string literal of the source. What the engine does to its surroundings is
recorded as a list of events, the earliest first. The logger `_plog` is the
address of the log member of the server shell and is never null; log calls have
no effect on the results and are left out. -/

/-- The bytes of a string literal of the source (without the terminating zero). -/
def cstr (s : String) : List Nat :=
  s.toList.map Char.toNat

/-- An action of the engine on its surroundings: `SendAppData(ucid, buf, size, true)`
and `_pclis->UpgradeWebSocket(ucid)`. -/
inductive Event where
  | send (ucid : Nat) (bytes : List Nat)
  | upgrade (ucid : Nat)
  deriving DecidableEq, Repr

/-- Modelled from the spec: the protocol tag `_nprotocol` of a parsed unit, with
the constants `PROTOCOL_HTTP` and `PROTOCOL_WS` of a header that is not among
the sources; `other` stands for any other value. -/
inductive Protocol where
  | PROTOCOL_HTTP
  | PROTOCOL_WS
  | other
  deriving DecidableEq, Repr

/-- Modelled from the spec: the opcode constant `WS_OP_BIN` (binary, RFC 6455),
declared in a header that is not among the sources. -/
abbrev WS_OP_BIN : Nat := 2

/-- Modelled from the spec: the opcode constant `WS_OP_CLOSE` (close, 8). -/
abbrev WS_OP_CLOSE : Nat := 8

/-- Modelled from the spec: the opcode constant `WS_OP_PING` (ping, 9). -/
abbrev WS_OP_PING : Nat := 9

/-- Modelled from the spec: the opcode constant `WS_OP_PONG` (pong, 10). -/
abbrev WS_OP_PONG : Nat := 10

/-- Modelled from the spec: the parsed unit `cHttpPacket` (declared in a header
that is not among the sources), reduced to what the engine reads of it: the
protocol tag, the method and request path, the fields `Sec-WebSocket-Protocol`
and `Sec-WebSocket-Version` as `GetHeadFiled` copies them out (empty when the
field is absent), the result of `GetWebSocketKey` (`none` when it reports
false), the result of `HasKeepAlive`, and the fin flag, opcode and body of a
WebSocket frame. -/
structure cHttpPacket where
  _nprotocol : Protocol
  _method : List Nat
  _request : List Nat
  sProtocol : List Nat
  sVersion : List Nat
  GetWebSocketKey : Option (List Nat)
  HasKeepAlive : Bool
  _fin : Nat
  _opcode : Nat
  _body : List Nat
  deriving DecidableEq, Repr

/-- Modelled from the spec: the status an incremental parser call reports,
`he_ok` (one unit ready), `he_waitdata` (need more bytes) or `he_failed`
(malformed input); the constants are declared in a header that is not among the
sources. -/
inductive ParseStatus where
  | he_ok
  | he_waitdata
  | he_failed
  deriving DecidableEq, Repr

/-- The outcome of one parser call: the status, and the unit left in `_httppkg`. -/
structure ParseResult where
  nr : ParseStatus
  pkg : cHttpPacket
  deriving DecidableEq, Repr

/-- The surroundings of the engine that its handlers consult: the configured
root directory, the percent-decoding `url2utf8`, the directory test `IsDir`, the
file read `LckRead` (`none` when it fails), the MIME lookup `GetMime` (`none`
when it reports false), and the digest and encoding used by the handshake. -/
structure Env where
  _sroot : List Nat
  url2utf8 : List Nat → List Nat
  IsDir : List Nat → Bool
  LckRead : List Nat → Option (List Nat)
  GetMime : List Nat → Option (List Nat)
  encode_sha1 : List Nat → List Nat
  encode_base64 : List Nat → List Nat

/-- The digits a C `strtol` reads in base 10: the value of the leading decimal
digits of the bytes, given the value `acc` read so far. -/
def atoi_digits : List Nat → Nat → Nat
  | [], acc => acc
  | c :: cs, acc => if 48 ≤ c ∧ c ≤ 57 then atoi_digits cs (acc * 10 + (c - 48)) else acc

/-- The C library function `strtol(s, NULL, 10)` of the 64-bit target (glibc),
through which `atoi` is defined: leading white space is skipped, an optional
sign is read, then the decimal digits up to the first other byte; the value is
0 when there are no digits, and a value outside the range of `long` is replaced
by `LONG_MAX` or `LONG_MIN`. -/
def strtol : List Nat → Int
  | [] => 0
  | c :: cs =>
    if c = 32 ∨ (9 ≤ c ∧ c ≤ 13) then strtol cs
    else if c = 45 then max (- (atoi_digits cs 0 : Int)) (-9223372036854775808)
    else if c = 43 then min (atoi_digits cs 0 : Int) 9223372036854775807
    else min (atoi_digits (c :: cs) 0 : Int) 9223372036854775807

/-- The conversion `(int)x` of a `long` on the target: the value is reduced
modulo `2 ^ 32` into the range of `int`. -/
def int_cast (x : Int) : Int :=
  (x + 2147483648) % 4294967296 - 2147483648

/-- The C library function `atoi` of the target (glibc), which returns
`(int) strtol(s, NULL, 10)`. -/
def atoi (s : List Nat) : Int :=
  int_cast (strtol s)

/-- The integer value of a header field, in the words of the spec: the decimal
number the field starts with, after leading white space and an optional sign, as
an integer of unbounded size; 0 when there are no digits. -/
def decimal_value : List Nat → Int
  | [] => 0
  | c :: cs =>
    if c = 32 ∨ (9 ≤ c ∧ c ≤ 13) then decimal_value cs
    else if c = 45 then - (atoi_digits cs 0 : Int)
    else if c = 43 then (atoi_digits cs 0 : Int)
    else (atoi_digits (c :: cs) 0 : Int)

/-- The bytes begin with a decimal digit. -/
def starts_with_digit : List Nat → Bool
  | [] => false
  | d :: _ => decide (48 ≤ d ∧ d ≤ 57)

/-- The field is not numeric: after leading white space and at most one sign it
does not go on with a decimal digit. The empty field, which is what an absent
header leaves, is not numeric. -/
def not_numeric : List Nat → Bool
  | [] => true
  | c :: cs =>
    if c = 32 ∨ (9 ≤ c ∧ c ≤ 13) then not_numeric cs
    else if c = 45 ∨ c = 43 then ! starts_with_digit cs
    else ! decide (48 ≤ c ∧ c ≤ 57)

/-- The lower-case form of a byte, as `tolower` gives it for ASCII letters. -/
def tolower (c : Nat) : Nat :=
  if 65 ≤ c ∧ c ≤ 90 then c + 32 else c

/-- The test `!stricmp(a, b)`: the two strings are equal up to the case of
their ASCII letters. -/
def stricmp_eq (a b : List Nat) : Bool :=
  a.map tolower = b.map tolower

/-- The fixed response of `DoBadRequest`. -/
def bad_request_response : List Nat :=
  cstr "http/1.1 400  Bad Request!\r\nServer:rdb5 websocket server\r\nConnection: keep-alive\r\nContent-type:text/plain\r\nContent-Length:11\r\n\r\nBad Request"

/-- The fixed response of `DoNotFount`. -/
def not_found_response : List Nat :=
  cstr "http/1.1 404  not found!\r\nServer:rdb5 websocket server\r\nConnection: keep-alive\r\nContent-type:text/plain\r\nContent-Length:9\r\n\r\nnot found"

/-- The method `cHttpsWorkThread::DoBadRequest(ucid)`: the events it causes. -/
def DoBadRequest (ucid : Nat) : List Event :=
  [Event.send ucid bad_request_response]

/-- The method `cHttpsWorkThread::DoNotFount(ucid)`: the events it causes. -/
def DoNotFount (ucid : Nat) : List Event :=
  [Event.send ucid not_found_response]

/-- The method `cHttpsWorkThread::OnWebSocketData`, in its default form that
echoes the payload: the returned flag and the events. -/
def OnWebSocketData (ucid : Nat) (wsopcode : Nat) (pdata : List Nat) : Bool × List Event :=
  (true, [Event.send ucid (MakeWsSend pdata (wsopcode % 256)).2])

/-- The method `cHttpsWorkThread::OnWsPing(ucid, pdata, size)`: the events. -/
def OnWsPing (ucid : Nat) (pdata : List Nat) : List Event :=
  [Event.send ucid (MakeWsSend pdata WS_OP_PONG).2]

/-- The method `cHttpsWorkThread::DoUpgradeWebSocket(ucid, skey)` on the unit
`pkg`: the returned flag and the events. -/
def DoUpgradeWebSocket (env : Env) (ucid : Nat) (pkg : cHttpPacket) (skey : List Nat) :
    Bool × List Event :=
  if atoi pkg.sVersion < 13 then
    (pkg.HasKeepAlive, DoBadRequest ucid)
  else
    let answer : List Nat := cstr "http/1.1 101 Switching Protocols\r\n"
    let answer := answer ++ cstr "Upgrade:websocket\r\nConnection:Upgrade\r\n"
    let answer :=
      if pkg.sProtocol ≠ [] then
        answer ++ (cstr "Sec-WebSocket-Protocol:" ++ pkg.sProtocol ++ cstr "\r\n")
      else answer
    let ss := skey ++ cstr "258EAFA5-E914-47DA-95CA-C5AB0DC85B11"
    let base64out := env.encode_base64 (env.encode_sha1 ss)
    let answer := answer ++ (cstr "Sec-WebSocket-Accept:" ++ base64out ++ cstr "\r\n\r\n")
    (true, [Event.upgrade ucid, Event.send ucid answer])

/-- The method `cHttpsWorkThread::GetFileExtName(s)`: the part of `s` from its
last `.` on, or `none` (the null pointer) when `s` has no `.`. -/
def GetFileExtName : List Nat → Option (List Nat)
  | [] => none
  | c :: cs =>
    match GetFileExtName cs with
    | some r => some r
    | none => if c = 46 then some (c :: cs) else none

/-- The method `cHttpsWorkThread::DoGetAndHead(ucid, bGet)` on the unit `pkg`:
the returned flag and the events. The mime header is added as the source adds
it, `_answer.Add("Content-type: ", 13)`, thirteen bytes of the literal. -/
def DoGetAndHead (env : Env) (ucid : Nat) (pkg : cHttpPacket) (bGet : Bool) :
    Bool × List Event :=
  let sfile := env._sroot ++ env.url2utf8 pkg._request
  let slash : Bool := sfile ≠ [] ∧ (sfile.getLast? = some 47 ∨ sfile.getLast? = some 92)
  if ¬ slash ∧ env.IsDir sfile then
    (pkg.HasKeepAlive, DoNotFount ucid)
  else
    let sfile := if slash then sfile ++ cstr "index.html" else sfile
    match env.LckRead sfile with
    | none => (pkg.HasKeepAlive, DoNotFount ucid)
    | some filetmp =>
      let answer : List Nat := cstr "http/1.1 200 ok\r\n"
      let answer := answer ++ cstr "Server: rdb5 websocket server\r\n"
      let answer :=
        if pkg.HasKeepAlive then answer ++ cstr "Connection: keep-alive\r\n" else answer
      let mime : Option (List Nat) :=
        match GetFileExtName sfile with
        | some sext => env.GetMime sext
        | none => none
      let answer :=
        match mime with
        | some tmp => answer ++ (cstr "Content-type: ").take 13 ++ tmp ++ cstr "\r\n"
        | none => answer ++ cstr "Content-type: application/octet-stream\r\n"
      let answer :=
        answer ++ cstr "Content-Length: " ++ cstr (Nat.repr filetmp.length) ++ cstr "\r\n\r\n"
      let answer := if bGet then answer ++ filetmp else answer
      (true, [Event.send ucid answer])

/-- The method `cHttpsWorkThread::DoHttpRequest(ucid)` on the unit `pkg` held in
`_httppkg`: the returned flag and the events. -/
def DoHttpRequest (env : Env) (ucid : Nat) (pkg : cHttpPacket) : Bool × List Event :=
  if stricmp_eq (cstr "GET") pkg._method then
    match pkg.GetWebSocketKey with
    | some skey => DoUpgradeWebSocket env ucid pkg skey
    | none => DoGetAndHead env ucid pkg true
  else if stricmp_eq (cstr "HEAD") pkg._method then
    DoGetAndHead env ucid pkg false
  else
    (pkg.HasKeepAlive, DoBadRequest ucid)

/-- The body of the `while (nr == he_ok)` loop of `OnAppData` for one unit, up
to the request for the next unit: `none` when the body returns `false` from
`OnAppData` at once (a close frame), otherwise the new value of `bret`; and the
events. -/
def OnAppData_unit (env : Env) (ucid : Nat) (pkg : cHttpPacket) (bret : Bool) :
    Option Bool × List Event :=
  match pkg._nprotocol with
  | Protocol.PROTOCOL_HTTP =>
    (some (DoHttpRequest env ucid pkg).1, (DoHttpRequest env ucid pkg).2)
  | Protocol.PROTOCOL_WS =>
    if pkg._opcode ≤ WS_OP_BIN then
      (some (OnWebSocketData ucid pkg._opcode pkg._body).1,
        (OnWebSocketData ucid pkg._opcode pkg._body).2)
    else if pkg._opcode = WS_OP_CLOSE then
      (none, [])
    else if pkg._opcode = WS_OP_PING then
      (some true, OnWsPing ucid pkg._body)
    else (some bret, [])
  | Protocol.other => (some bret, [])

/-- The loop of `OnAppData` and what follows it: `results` are the outcomes of
the parser calls still to come (`OnReadData` first, then each `DoNextData`),
`bret` the current flag and `sent` the events so far. A parser that has no
further outcome reports `he_waitdata`. -/
def OnAppData_loop (env : Env) (ucid : Nat) :
    List ParseResult → Bool → List Event → Bool × List Event
  | [], bret, sent => (bret, sent)
  | r :: rest, bret, sent =>
    match r.nr with
    | ParseStatus.he_ok =>
      match (OnAppData_unit env ucid r.pkg bret).1 with
      | none => (false, sent ++ (OnAppData_unit env ucid r.pkg bret).2)
      | some b => OnAppData_loop env ucid rest b (sent ++ (OnAppData_unit env ucid r.pkg bret).2)
    | ParseStatus.he_failed => (false, sent ++ DoBadRequest ucid)
    | ParseStatus.he_waitdata => (bret, sent)

/-- The method `cHttpsWorkThread::OnAppData(ucid, pdata, usize)`: the returned
flag and the events. The chunk of bytes is passed on to the parser, whose
behaviour on it is the list `results` of the outcomes of its successive calls. -/
def OnAppData (env : Env) (ucid : Nat) (results : List ParseResult) : Bool × List Event :=
  OnAppData_loop env ucid results true []

/-- An example environment: an empty root directory, no files, no MIME types,
and identity functions for the decoding, the digest and the encoding. -/
def example_env : Env :=
  { _sroot := [], url2utf8 := fun s => s, IsDir := fun _ => false,
    LckRead := fun _ => none, GetMime := fun _ => none,
    encode_sha1 := fun s => s, encode_base64 := fun s => s }

/-- An example WebSocket unit with the given opcode and payload. -/
def example_frame (opcode : Nat) (body : List Nat) : cHttpPacket :=
  { _nprotocol := Protocol.PROTOCOL_WS, _method := [], _request := [], sProtocol := [],
    sVersion := [], GetWebSocketKey := none, HasKeepAlive := false, _fin := 1,
    _opcode := opcode, _body := body }

/-- An example HTTP request for `/` with the given method, WebSocket version
field, WebSocket key and keep-alive flag. -/
def example_request (method sVersion : List Nat) (key : Option (List Nat))
    (keepalive : Bool) : cHttpPacket :=
  { _nprotocol := Protocol.PROTOCOL_HTTP, _method := method, _request := cstr "/",
    sProtocol := [], sVersion := sVersion, GetWebSocketKey := key,
    HasKeepAlive := keepalive, _fin := 0, _opcode := 0, _body := [] }

/-- The result of the handler that the body of the `OnAppData` loop runs for a
unit, as the source assigns it to `bret`: the result of `DoHttpRequest` for an
HTTP unit, of `OnWebSocketData` for a WebSocket unit with opcode up to
`WS_OP_BIN`, and true for a ping (after `OnWsPing`); `none` for a unit for which
the body runs no handler and leaves `bret` as it is (a WebSocket unit with
another opcode, a unit with another protocol tag). -/
def handler_result (env : Env) (ucid : Nat) (pkg : cHttpPacket) : Option Bool :=
  match pkg._nprotocol with
  | Protocol.PROTOCOL_HTTP => some (DoHttpRequest env ucid pkg).1
  | Protocol.PROTOCOL_WS =>
    if pkg._opcode ≤ WS_OP_BIN then some (OnWebSocketData ucid pkg._opcode pkg._body).1
    else if pkg._opcode = WS_OP_PING then some true
    else none
  | Protocol.other => none

/-- The events that the body of the `OnAppData` loop causes for a unit: those of
the handler it runs, none when it runs no handler. -/
def handler_events (env : Env) (ucid : Nat) (pkg : cHttpPacket) : List Event :=
  match pkg._nprotocol with
  | Protocol.PROTOCOL_HTTP => (DoHttpRequest env ucid pkg).2
  | Protocol.PROTOCOL_WS =>
    if pkg._opcode ≤ WS_OP_BIN then (OnWebSocketData ucid pkg._opcode pkg._body).2
    else if pkg._opcode = WS_OP_PING then OnWsPing ucid pkg._body
    else []
  | Protocol.other => []

/-- The parser outcome "one unit ready" with the unit `pkg`. -/
def unit_ready (pkg : cHttpPacket) : ParseResult :=
  { nr := ParseStatus.he_ok, pkg := pkg }

/-! # Theorems -/

/-! ## `ec::memory::malloc`: the reported capacity covers the request -/

theorem malloc_outsize_ge (m : memory) (h : Heap) (size : Nat)
    (hp : (m.malloc h size).1 ≠ 0) : size ≤ (m.malloc h size).2.1 := by
  unfold memory.malloc at hp ⊢
  simp only at hp ⊢
  split_ifs at hp ⊢ <;> (try split at hp) <;> simp_all

/-! ## `ec::auto_buffer` -/

theorem clear_inv (b : auto_buffer) (h : Heap) (hb : b.inv) : (b.clear h).1.inv := by
  unfold auto_buffer.clear
  split_ifs with h0
  · cases hm : b._pmem <;> simp [auto_buffer.inv]
  · exact hb

theorem clear_zero (b : auto_buffer) (h : Heap) (hb : b.inv) :
    (b.clear h).1._pbuf = 0 ∧ (b.clear h).1._size = 0 ∧ (b.clear h).1._sizebuf = 0 := by
  unfold auto_buffer.clear
  split_ifs with h0
  · cases hm : b._pmem <;> simp
  · simp only [ne_eq, not_not] at h0
    exact ⟨h0, hb.2 h0⟩

theorem resize_inv (b : auto_buffer) (h : Heap) (rsz : Nat) (hb : b.inv) :
    (b.resize h rsz).2.1.inv := by
  obtain ⟨pmem, pbuf, size, cap⟩ := b
  simp only [auto_buffer.inv] at hb ⊢
  by_cases hgt : rsz > cap
  · by_cases hp : pbuf = 0
    · cases pmem with
      | none =>
        simp only [auto_buffer.resize, auto_buffer.clear, hgt, hp]
        simp only [ne_eq, not_true_eq_false, if_false, if_true]
        split_ifs <;> simp_all
      | some m =>
        have hm := malloc_outsize_ge m h rsz
        simp only [auto_buffer.resize, auto_buffer.clear, hgt, hp]
        simp only [ne_eq, not_true_eq_false, if_false, if_true]
        split_ifs <;> simp_all
    · cases pmem with
      | none =>
        simp only [auto_buffer.resize, auto_buffer.clear, hgt, hp]
        simp only [ne_eq, not_false_eq_true, if_false, if_true]
        split_ifs <;> simp_all
      | some m =>
        simp only [auto_buffer.resize, auto_buffer.clear, hgt, hp]
        simp only [ne_eq, not_false_eq_true, if_false, if_true]
        split_ifs <;> simp_all
  · simp only [auto_buffer.resize, hgt, if_false]
    constructor
    · simpa using hgt
    · intro h0
      have := (hb.2 h0).2
      simp only at this
      subst this
      simp at hgt
      simp [hgt]

theorem run_inv (calls : List BufferCall) (s : auto_buffer × Heap) (hs : s.1.inv) :
    (auto_buffer.run calls s).1.inv := by
  induction calls generalizing s with
  | nil => simpa [auto_buffer.run] using hs
  | cons c cs ih =>
    have hstep : (auto_buffer.call s c).1.inv := by
      cases c with
      | resize rsz => exact resize_inv s.1 s.2 rsz hs
      | clear => exact clear_inv s.1 s.2 hs
    simpa [auto_buffer.run] using ih (auto_buffer.call s c) hstep

theorem construct_inv (pmem : Option memory) : (auto_buffer.construct pmem).inv := by
  simp [auto_buffer.construct, auto_buffer.inv]

/-- Claim C1, evaluated where the code departs from it. A buffer without an
allocator that holds a 4-byte region (the state `resize(4)` leaves a fresh
buffer in) is resized to 8. The call releases the old region, which resets
`_size` to zero, and then requests `_size = 0` bytes from the heap and records
`_sizebuf = 0`: the allocation succeeds (the pointer 8192 is returned) and the
backing capacity afterwards is 0, not at least 8. -/
theorem resize_heap_branch_drops_capacity :
    auto_buffer.run [BufferCall.resize 4]
        (auto_buffer.construct none, { answers := [4096, 8192], calls := [] })
      = ({ _pmem := none, _pbuf := 4096, _size := 4, _sizebuf := 4 },
         { answers := [8192], calls := [HeapCall.malloc 4 4096] }) ∧
    (auto_buffer.resize { _pmem := none, _pbuf := 4096, _size := 4, _sizebuf := 4 }
        { answers := [8192], calls := [HeapCall.malloc 4 4096] } 8)
      = (8192, { _pmem := none, _pbuf := 8192, _size := 0, _sizebuf := 0 },
         { answers := [],
           calls := [HeapCall.malloc 0 8192, HeapCall.free 4096, HeapCall.malloc 4 4096] }) := by
  decide

/-- Claim C6: starting from a freshly constructed buffer (with any allocator
state attached, or none), after any sequence of `resize(n)` and `clear()` calls
on a heap whose allocations succeed or fail arbitrarily, the logical size is at
most the backing capacity; whenever the data pointer is null, size and capacity
are both zero; and a further `clear()` leaves a null pointer and
size = capacity = 0. -/
theorem auto_buffer_size_le_capacity (pmem : Option memory) (h : Heap)
    (calls : List BufferCall) :
    (auto_buffer.run calls (auto_buffer.construct pmem, h)).1._size
        ≤ (auto_buffer.run calls (auto_buffer.construct pmem, h)).1._sizebuf ∧
    ((auto_buffer.run calls (auto_buffer.construct pmem, h)).1._pbuf = 0 →
      (auto_buffer.run calls (auto_buffer.construct pmem, h)).1._size = 0 ∧
      (auto_buffer.run calls (auto_buffer.construct pmem, h)).1._sizebuf = 0) ∧
    ((auto_buffer.run (calls ++ [BufferCall.clear]) (auto_buffer.construct pmem, h)).1._pbuf = 0 ∧
      (auto_buffer.run (calls ++ [BufferCall.clear]) (auto_buffer.construct pmem, h)).1._size = 0 ∧
      (auto_buffer.run (calls ++ [BufferCall.clear]) (auto_buffer.construct pmem, h)).1._sizebuf = 0) := by
  have hinv := run_inv calls (auto_buffer.construct pmem, h) (construct_inv pmem)
  refine ⟨hinv.1, hinv.2, ?_⟩
  have hc := clear_zero _ (auto_buffer.run calls (auto_buffer.construct pmem, h)).2 hinv
  simpa [auto_buffer.run, auto_buffer.call] using hc

/-- Claim C6 at a concrete input: a fresh buffer whose first `resize(4)` meets a
failing heap allocation has a null data pointer, and size and capacity zero. -/
theorem auto_buffer_size_le_capacity_witness :
    (auto_buffer.run [BufferCall.resize 4]
        (auto_buffer.construct none, { answers := [0], calls := [] })).1._pbuf = 0 ∧
    ((auto_buffer.run [BufferCall.resize 4]
        (auto_buffer.construct none, { answers := [0], calls := [] })).1._size = 0 ∧
     (auto_buffer.run [BufferCall.resize 4]
        (auto_buffer.construct none, { answers := [0], calls := [] })).1._sizebuf = 0) :=
  ⟨by decide,
   (auto_buffer_size_le_capacity none { answers := [0], calls := [] }
      [BufferCall.resize 4]).2.1 (by decide)⟩

/-- Claim C2, evaluated where the code departs from it. With an allocator
attached: a buffer that holds a small-tier block after `resize(4)` is resized to
100; the old block is released (which resets `_size` to zero), a medium-tier
block is obtained (pointer 131072, capacity 1024), and `size()` is 0 afterwards,
not 100. Without an allocator: a buffer holding a 4-byte heap region is resized
to 8, the allocation succeeds (pointer 8192), and `size()` is 0, not 8. -/
theorem resize_replacing_region_reports_size_zero :
    (auto_buffer.run [BufferCall.resize 4]
        (auto_buffer.construct (some example_memory.1), example_memory.2)).1._pbuf = 65536 ∧
    (auto_buffer.run [BufferCall.resize 4]
        (auto_buffer.construct (some example_memory.1), example_memory.2)).1.size = 4 ∧
    (auto_buffer.run [BufferCall.resize 4]
        (auto_buffer.construct (some example_memory.1), example_memory.2)).1._sizebuf = 64 ∧
    (auto_buffer.run [BufferCall.resize 4, BufferCall.resize 100]
        (auto_buffer.construct (some example_memory.1), example_memory.2)).1._pbuf = 131072 ∧
    (auto_buffer.run [BufferCall.resize 4, BufferCall.resize 100]
        (auto_buffer.construct (some example_memory.1), example_memory.2)).1._sizebuf = 1024 ∧
    (auto_buffer.run [BufferCall.resize 4, BufferCall.resize 100]
        (auto_buffer.construct (some example_memory.1), example_memory.2)).1.size = 0 ∧
    (auto_buffer.run [BufferCall.resize 4, BufferCall.resize 8]
        (auto_buffer.construct none, { answers := [4096, 8192], calls := [] })).1._pbuf = 8192 ∧
    (auto_buffer.run [BufferCall.resize 4, BufferCall.resize 8]
        (auto_buffer.construct none, { answers := [4096, 8192], calls := [] })).1.size = 0 := by
  decide

/-- Claim C5, evaluated where the code departs from it. A buffer without an
allocator holds a 4-byte region; `resize(8)` returns the non-null pointer 8192
but leaves capacity 0 (the defect of C1); the following `resize(6)`, with
6 <= 8, then calls `::free(8192)` and `::malloc(0)`, and the data pointer
changes from 8192 to 12288. -/
theorem resize_shrink_after_grow_reallocates :
    auto_buffer.run [BufferCall.resize 4, BufferCall.resize 8]
        (auto_buffer.construct none, { answers := [4096, 8192, 12288], calls := [] })
      = ({ _pmem := none, _pbuf := 8192, _size := 0, _sizebuf := 0 },
         { answers := [12288],
           calls := [HeapCall.malloc 0 8192, HeapCall.free 4096, HeapCall.malloc 4 4096] }) ∧
    auto_buffer.resize { _pmem := none, _pbuf := 8192, _size := 0, _sizebuf := 0 }
        { answers := [12288],
          calls := [HeapCall.malloc 0 8192, HeapCall.free 4096, HeapCall.malloc 4 4096] } 6
      = (12288, { _pmem := none, _pbuf := 12288, _size := 0, _sizebuf := 0 },
         { answers := [],
           calls := [HeapCall.malloc 0 12288, HeapCall.free 8192, HeapCall.malloc 0 8192,
                     HeapCall.free 4096, HeapCall.malloc 4 4096] }) := by
  decide

/-- Where C1 holds: with an allocator attached, or on a buffer that holds no
region, a growing `resize(n)` that returns a non-null pointer leaves a backing
capacity of at least `n`. -/
theorem resize_capacity_ge (b : auto_buffer) (h : Heap) (rsz : Nat)
    (hgt : rsz > b._sizebuf) (hb : b._pmem ≠ none ∨ b._pbuf = 0)
    (hp : (b.resize h rsz).1 ≠ 0) : rsz ≤ (b.resize h rsz).2.1._sizebuf := by
  obtain ⟨pmem, pbuf, size, cap⟩ := b
  simp only at hgt hb
  cases pmem with
  | none =>
    have hp0 : pbuf = 0 := by simpa using hb
    subst hp0
    simp only [auto_buffer.resize, auto_buffer.clear, hgt] at hp ⊢
    simp only [ne_eq, not_true_eq_false, if_false, if_true] at hp ⊢
    split_ifs at hp ⊢ <;> simp_all
  | some m =>
    by_cases hp0 : pbuf = 0
    · have hm := malloc_outsize_ge m h rsz
      simp only [auto_buffer.resize, auto_buffer.clear, hgt, hp0] at hp ⊢
      simp only [ne_eq, not_true_eq_false, if_false, if_true] at hp ⊢
      split_ifs at hp ⊢ <;> simp_all
    · have hm := malloc_outsize_ge (m.mem_free h pbuf).1 (m.mem_free h pbuf).2 rsz
      simp only [auto_buffer.resize, auto_buffer.clear, hgt, hp0] at hp ⊢
      simp only [ne_eq, not_false_eq_true, if_false, if_true] at hp ⊢
      split_ifs at hp ⊢ <;> simp_all

/-- Where C5 holds: a `resize(n)` with `n` within the current capacity performs
no heap call, leaves pointer, capacity and allocator as they are, and sets the
logical size to `n`. -/
theorem resize_within_capacity (b : auto_buffer) (h : Heap) (rsz : Nat)
    (hle : rsz ≤ b._sizebuf) :
    b.resize h rsz = (b._pbuf, { b with _size := rsz }, h) := by
  have : ¬ rsz > b._sizebuf := by omega
  simp [auto_buffer.resize, this]

/-! ## `ec::memory` -/

theorem selected_tier_small (m : memory) (size : Nat) (h1 : size ≤ m._sz_s) :
    m.selected_tier size = some Tier.small := by
  simp [memory.selected_tier, memory.block_size, h1]

theorem selected_tier_medium (m : memory) (size : Nat) (h1 : ¬ size ≤ m._sz_s)
    (h2 : size ≤ m._sz_m) : m.selected_tier size = some Tier.medium := by
  simp [memory.selected_tier, memory.block_size, h1, h2]

theorem selected_tier_large (m : memory) (size : Nat) (h1 : ¬ size ≤ m._sz_s)
    (h2 : ¬ size ≤ m._sz_m) (h3 : size ≤ m._sz_l) :
    m.selected_tier size = some Tier.large := by
  simp [memory.selected_tier, memory.block_size, h1, h2, h3]

theorem selected_tier_none (m : memory) (size : Nat) (h1 : ¬ size ≤ m._sz_s)
    (h2 : ¬ size ≤ m._sz_m) (h3 : ¬ size ≤ m._sz_l) :
    m.selected_tier size = none := by
  simp [memory.selected_tier, memory.block_size, h1, h2, h3]

/-- The outcome of `mem_malloc` in the words of the spec. -/
theorem mem_malloc_eq (m : memory) (h : Heap) (size : Nat) :
    m.mem_malloc h size =
      match m.selected_tier size with
      | some t =>
        match ((m.materialise h t).1.free_stack t).items with
        | p :: rest =>
          (p, (m.materialise h t).1.set_free_stack t
                { capacity := ((m.materialise h t).1.free_stack t).capacity, items := rest },
              (m.materialise h t).2)
        | [] =>
          (((m.materialise h t).2.sys_malloc size).1, (m.materialise h t).1,
            ((m.materialise h t).2.sys_malloc size).2)
      | none => ((h.sys_malloc size).1, m, (h.sys_malloc size).2) := by
  by_cases h1 : size ≤ m._sz_s
  · rw [selected_tier_small m size h1]
    simp only [memory.mem_malloc, h1, if_true, memory.materialise, memory.free_stack,
      memory.set_free_stack, stack.pop]
    cases hi : m._stks.items <;> simp
  · by_cases h2 : size ≤ m._sz_m
    · rw [selected_tier_medium m size h1 h2]
      simp only [memory.mem_malloc, h1, h2, if_true, if_false, memory.materialise,
        memory.free_stack, memory.set_free_stack, stack.pop]
      by_cases hp : m._pm = 0
      · simp only [hp, if_true]
        cases hi : (malloc_block m._sz_m m._blk_m 0 m._stkm h).2.2.1.items <;> simp [hi]
      · simp only [hp, if_false]
        cases hi : m._stkm.items <;> simp [hi]
    · by_cases h3 : size ≤ m._sz_l
      · rw [selected_tier_large m size h1 h2 h3]
        simp only [memory.mem_malloc, h1, h2, h3, if_true, if_false, memory.materialise,
          memory.free_stack, memory.set_free_stack, stack.pop]
        by_cases hp : m._pl = 0
        · simp only [hp, if_true]
          cases hi : (malloc_block m._sz_l m._blk_l 0 m._stkl h).2.2.1.items <;> simp [hi]
        · simp only [hp, if_false]
          cases hi : m._stkl.items <;> simp [hi]
      · rw [selected_tier_none m size h1 h2 h3]
        simp [memory.mem_malloc, h1, h2, h3]

/-- The outcome of `malloc(size, outsize)` in the words of the spec. -/
theorem malloc_eq (m : memory) (h : Heap) (size : Nat) :
    m.malloc h size =
      match m.selected_tier size with
      | some t =>
        match ((m.materialise h t).1.free_stack t).items with
        | p :: rest =>
          (p, m.block_size t,
            (m.materialise h t).1.set_free_stack t
              { capacity := ((m.materialise h t).1.free_stack t).capacity, items := rest },
            (m.materialise h t).2)
        | [] =>
          (((m.materialise h t).2.sys_malloc size).1,
            (if ((m.materialise h t).2.sys_malloc size).1 = 0 then 0 else size),
            (m.materialise h t).1, ((m.materialise h t).2.sys_malloc size).2)
      | none =>
        ((h.sys_malloc size).1, (if (h.sys_malloc size).1 = 0 then 0 else size), m,
          (h.sys_malloc size).2) := by
  by_cases h1 : size ≤ m._sz_s
  · rw [selected_tier_small m size h1]
    simp only [memory.malloc, h1, if_true, memory.materialise, memory.free_stack,
      memory.set_free_stack, memory.block_size, stack.pop]
    cases hi : m._stks.items with
    | nil =>
      simp only []
      split_ifs <;> simp_all
    | cons p rest => simp
  · by_cases h2 : size ≤ m._sz_m
    · rw [selected_tier_medium m size h1 h2]
      simp only [memory.malloc, h1, h2, if_true, if_false, memory.materialise,
        memory.free_stack, memory.set_free_stack, memory.block_size, stack.pop]
      by_cases hp : m._pm = 0
      · simp only [hp, if_true]
        cases hi : (malloc_block m._sz_m m._blk_m 0 m._stkm h).2.2.1.items with
        | nil =>
          simp only [hi]
          split_ifs <;> simp_all
        | cons p rest => simp [hi]
      · simp only [hp, if_false]
        cases hi : m._stkm.items with
      | nil =>
        simp only [hi]
        split_ifs <;> simp_all
      | cons p rest => simp [hi]
    · by_cases h3 : size ≤ m._sz_l
      · rw [selected_tier_large m size h1 h2 h3]
        simp only [memory.malloc, h1, h2, h3, if_true, if_false, memory.materialise,
          memory.free_stack, memory.set_free_stack, memory.block_size, stack.pop]
        by_cases hp : m._pl = 0
        · simp only [hp, if_true]
          cases hi : (malloc_block m._sz_l m._blk_l 0 m._stkl h).2.2.1.items with
          | nil =>
            simp only [hi]
            split_ifs <;> simp_all
          | cons p rest => simp [hi]
        · simp only [hp, if_false]
          cases hi : m._stkl.items with
        | nil =>
          simp only [hi]
          split_ifs <;> simp_all
        | cons p rest => simp [hi]
      · rw [selected_tier_none m size h1 h2 h3]
        simp only [memory.malloc, h1, h2, h3, if_false]
        split_ifs <;> simp_all

theorem materialise_free_stack_other (m : memory) (h : Heap) (t t' : Tier) (hne : t' ≠ t) :
    (m.materialise h t).1.free_stack t' = m.free_stack t' ∧
    (m.materialise h t).1.arena t' = m.arena t' := by
  cases t <;> cases t' <;> simp_all [memory.materialise, memory.free_stack, memory.arena]
    <;> split_ifs <;> simp

theorem set_free_stack_other (m : memory) (t t' : Tier) (s : stack) (hne : t' ≠ t) :
    (m.set_free_stack t s).free_stack t' = m.free_stack t' := by
  cases t <;> cases t' <;> simp_all [memory.set_free_stack, memory.free_stack]

theorem set_free_stack_arena (m : memory) (t t' : Tier) (s : stack) :
    (m.set_free_stack t s).arena t' = m.arena t' := by
  cases t <;> cases t' <;> simp [memory.set_free_stack, memory.arena]

theorem sys_malloc_calls (h : Heap) (size : Nat) :
    (h.sys_malloc size).2.calls = HeapCall.malloc size (h.sys_malloc size).1 :: h.calls := by
  unfold Heap.sys_malloc
  cases h.answers <;> simp

/-- Claim C7: for every allocator state, heap and size, `mem_malloc(size)`
selects the first tier, in the order small, medium, large, whose block size is
at least `size` (materialising its arena first when it is the medium or large
tier and the arena is absent). If the free stack of that tier is non-empty the
result is its top entry, which is popped, and the heap is not asked for the
request; if it is empty, or no tier is selected, the result is the heap
allocation of exactly `size` bytes and no free stack changes. The free stacks
and arenas of the tiers other than the selected one are left as they were. When
the free stack of the selected tier holds no null address, the result is null
only if the heap allocation of `size` bytes was made and failed. -/
theorem mem_malloc_selects_one_source (m : memory) (h : Heap) (size : Nat) :
    (m.mem_malloc h size =
      match m.selected_tier size with
      | some t =>
        match ((m.materialise h t).1.free_stack t).items with
        | p :: rest =>
          (p, (m.materialise h t).1.set_free_stack t
                { capacity := ((m.materialise h t).1.free_stack t).capacity, items := rest },
              (m.materialise h t).2)
        | [] =>
          (((m.materialise h t).2.sys_malloc size).1, (m.materialise h t).1,
            ((m.materialise h t).2.sys_malloc size).2)
      | none => ((h.sys_malloc size).1, m, (h.sys_malloc size).2)) ∧
    (∀ t t', m.selected_tier size = some t → t' ≠ t →
      (m.mem_malloc h size).2.1.free_stack t' = m.free_stack t' ∧
      (m.mem_malloc h size).2.1.arena t' = m.arena t') ∧
    ((∀ t, m.selected_tier size = some t →
        ∀ x ∈ ((m.materialise h t).1.free_stack t).items, x ≠ 0) →
      (m.mem_malloc h size).1 = 0 →
      (m.mem_malloc h size).2.2.calls.head? = some (HeapCall.malloc size 0)) := by
  refine ⟨mem_malloc_eq m h size, ?_, ?_⟩
  · intro t t' ht hne
    rw [mem_malloc_eq, ht]
    simp only
    cases hi : ((m.materialise h t).1.free_stack t).items with
    | nil => simpa using materialise_free_stack_other m h t t' hne
    | cons p rest =>
      simp only [set_free_stack_other _ t t' _ hne, set_free_stack_arena]
      exact materialise_free_stack_other m h t t' hne
  · intro hnn
    rw [mem_malloc_eq]
    cases ht : m.selected_tier size with
    | none =>
      simp only
      intro h0
      rw [sys_malloc_calls, h0]
      rfl
    | some t =>
      simp only
      cases hi : ((m.materialise h t).1.free_stack t).items with
      | nil =>
        simp only
        intro h0
        rw [sys_malloc_calls, h0]
        rfl
      | cons p rest =>
        simp only
        intro h0
        exact absurd h0 (hnn t ht p (by simp [hi]))

/-- Claim C7 at a concrete input: a request of 100 bytes to the example
allocator on a heap that fails every allocation selects the medium tier, whose
arena cannot be materialised; the free stack stays empty, the heap request for
100 bytes fails and the result is null. -/
theorem mem_malloc_selects_one_source_witness :
    (example_memory.1.mem_malloc { answers := [], calls := [] } 100).1 = 0 ∧
    (example_memory.1.mem_malloc { answers := [], calls := [] } 100).2.2.calls.head?
      = some (HeapCall.malloc 100 0) :=
  ⟨by decide,
   (mem_malloc_selects_one_source example_memory.1 { answers := [], calls := [] } 100).2.2
     (by decide) (by decide)⟩

/-- Claim C8: for every allocator state, heap and size, `malloc(size, outsize)`
reports `outsize` = the block size of the selected tier when the pointer was
popped from the free stack of that tier; `outsize = size` when the pointer came
from a successful heap allocation; and `outsize = 0` with a null pointer when
the heap allocation fails. Consequently, whenever the returned pointer is
non-null, `outsize >= size`. -/
theorem malloc_reports_capacity (m : memory) (h : Heap) (size : Nat) :
    (m.malloc h size =
      match m.selected_tier size with
      | some t =>
        match ((m.materialise h t).1.free_stack t).items with
        | p :: rest =>
          (p, m.block_size t,
            (m.materialise h t).1.set_free_stack t
              { capacity := ((m.materialise h t).1.free_stack t).capacity, items := rest },
            (m.materialise h t).2)
        | [] =>
          (((m.materialise h t).2.sys_malloc size).1,
            (if ((m.materialise h t).2.sys_malloc size).1 = 0 then 0 else size),
            (m.materialise h t).1, ((m.materialise h t).2.sys_malloc size).2)
      | none =>
        ((h.sys_malloc size).1, (if (h.sys_malloc size).1 = 0 then 0 else size), m,
          (h.sys_malloc size).2)) ∧
    ((m.malloc h size).1 ≠ 0 → size ≤ (m.malloc h size).2.1) :=
  ⟨malloc_eq m h size, malloc_outsize_ge m h size⟩

/-- Claim C8 at concrete inputs: a request of 10 bytes to the example allocator
is served from the small tier, the pointer 65536 is non-null and the reported
capacity is the block size 64, which is at least 10. -/
theorem malloc_reports_capacity_witness :
    (example_memory.1.malloc example_memory.2 10).1 = 65536 ∧
    (example_memory.1.malloc example_memory.2 10).2.1 = 64 ∧
    10 ≤ (example_memory.1.malloc example_memory.2 10).2.1 :=
  ⟨by decide, by decide,
   (malloc_reports_capacity example_memory.1 example_memory.2 10).2 (by decide)⟩

/-- Claim C9: run from the same allocator state on the same heap with the same
size, `malloc(size, outsize)` and `mem_malloc(size)` return the same pointer and
leave the same allocator state (arenas and free stacks) and the same heap. -/
theorem malloc_same_selection_as_mem_malloc (m : memory) (h : Heap) (size : Nat) :
    (m.malloc h size).1 = (m.mem_malloc h size).1 ∧
    (m.malloc h size).2.2.1 = (m.mem_malloc h size).2.1 ∧
    (m.malloc h size).2.2.2 = (m.mem_malloc h size).2.2 := by
  rw [malloc_eq, mem_malloc_eq]
  cases m.selected_tier size with
  | none => simp
  | some t =>
    simp only
    cases ((m.materialise h t).1.free_stack t).items <;> simp

theorem owner_small (m : memory) (p : Ptr) (h1 : m.in_range Tier.small p) :
    m.owner p = some Tier.small := by
  simp [memory.owner, h1]

theorem owner_medium (m : memory) (p : Ptr) (h1 : ¬ m.in_range Tier.small p)
    (h2 : m.in_range Tier.medium p) : m.owner p = some Tier.medium := by
  simp [memory.owner, h1, h2]

theorem owner_large (m : memory) (p : Ptr) (h1 : ¬ m.in_range Tier.small p)
    (h2 : ¬ m.in_range Tier.medium p) (h3 : m.in_range Tier.large p) :
    m.owner p = some Tier.large := by
  simp [memory.owner, h1, h2, h3]

theorem owner_none (m : memory) (p : Ptr) (h1 : ¬ m.in_range Tier.small p)
    (h2 : ¬ m.in_range Tier.medium p) (h3 : ¬ m.in_range Tier.large p) :
    m.owner p = none := by
  simp [memory.owner, h1, h2, h3]

theorem add_mod_size_t (a k : Nat) (hno : a + k < SIZE_T_RANGE) :
    (a + k % SIZE_T_RANGE) % SIZE_T_RANGE = a + k := by
  have hk : k < SIZE_T_RANGE := lt_of_le_of_lt (Nat.le_add_left k a) hno
  rw [Nat.mod_eq_of_lt hk, Nat.mod_eq_of_lt hno]

/-- The outcome of `mem_free` on a non-null pointer in the words of the spec. -/
theorem mem_free_eq (m : memory) (h : Heap) (p : Ptr) (hp : p ≠ 0) :
    m.mem_free h p =
      match m.owner p with
      | some t => (m.set_free_stack t ((m.free_stack t).push p), h)
      | none => (m, h.sys_free p) := by
  unfold memory.mem_free
  rw [if_neg hp]
  split_ifs with c1 c2 c3
  · have h1 : m.in_range Tier.small p := c1
    rw [owner_small m p h1]
    rfl
  · have h1 : ¬ m.in_range Tier.small p := c1
    have h2 : m.in_range Tier.medium p := c2
    rw [owner_medium m p h1 h2]
    rfl
  · have h1 : ¬ m.in_range Tier.small p := c1
    have h2 : ¬ m.in_range Tier.medium p := c2
    have h3 : m.in_range Tier.large p := c3
    rw [owner_large m p h1 h2 h3]
    rfl
  · have h1 : ¬ m.in_range Tier.small p := c1
    have h2 : ¬ m.in_range Tier.medium p := c2
    have h3 : ¬ m.in_range Tier.large p := c3
    rw [owner_none m p h1 h2 h3]

/-- Claim C10: for every allocator state, heap and pointer `p`, `mem_free(p)`
leaves allocator and heap unchanged when `p` is null. Otherwise `p` is pushed
onto the free stack of the first tier, in the order small, medium, large, whose
arena is materialised and whose range `[base, base + block_size * block_count)`
contains `p`; the two other free stacks are unchanged and the heap is not
called. If no tier's range contains `p`, `::free(p)` is called and the allocator
(all three free stacks) is unchanged. The push stores `p` on top of the stack
when the stack is below its bound. The end of a range is computed in `size_t`
arithmetic, as in the source; when `base + block_size * block_count` does not
exceed the range of `size_t` it is that sum. -/
theorem mem_free_classifies_by_range (m : memory) (h : Heap) (p : Ptr) :
    (p = 0 → m.mem_free h p = (m, h)) ∧
    (p ≠ 0 →
      m.mem_free h p =
        match m.owner p with
        | some t => (m.set_free_stack t ((m.free_stack t).push p), h)
        | none => (m, h.sys_free p)) ∧
    (∀ t, p ≠ 0 → m.owner p = some t →
      (m.mem_free h p).1.free_stack t = (m.free_stack t).push p ∧
      (∀ t', t' ≠ t → (m.mem_free h p).1.free_stack t' = m.free_stack t') ∧
      (m.mem_free h p).2 = h ∧
      ((m.free_stack t).items.length < (m.free_stack t).capacity →
        ((m.mem_free h p).1.free_stack t).items = p :: (m.free_stack t).items)) ∧
    (p ≠ 0 → m.owner p = none →
      (m.mem_free h p).1 = m ∧
      (m.mem_free h p).2.calls = HeapCall.free p :: h.calls ∧
      (m.mem_free h p).2.answers = h.answers) ∧
    (∀ t, m.arena t + m.block_size t * m.block_count t < SIZE_T_RANGE →
      (m.in_range t p ↔
        m.arena t ≠ 0 ∧ m.arena t ≤ p ∧ p < m.arena t + m.block_size t * m.block_count t)) := by
  refine ⟨?_, mem_free_eq m h p, ?_, ?_, ?_⟩
  · intro h0
    simp [memory.mem_free, h0]
  · intro t hp ht
    rw [mem_free_eq m h p hp, ht]
    refine ⟨?_, ?_, rfl, ?_⟩
    · cases t <;> rfl
    · intro t' hne
      exact set_free_stack_other m t t' _ hne
    · intro hlt
      have : (m.set_free_stack t ((m.free_stack t).push p)).free_stack t
          = (m.free_stack t).push p := by cases t <;> rfl
      rw [this]
      simp [stack.push, hlt]
  · intro hp hn
    rw [mem_free_eq m h p hp, hn]
    simp [Heap.sys_free]
  · intro t hno
    unfold memory.in_range
    generalize m.block_size t * m.block_count t = k at hno ⊢
    generalize m.arena t = a at hno ⊢
    rw [add_mod_size_t a k hno]

/-- Claim C10 at concrete inputs: in the example allocator, whose small arena is
`[65536, 65536 + 64 * 2)`, the address 65600 is claimed by the small tier;
releasing it after it was allocated puts it back on top of the small free stack
without a heap call. -/
theorem mem_free_classifies_by_range_witness :
    example_memory.1.owner 65600 = some Tier.small ∧
    ((example_memory.1.mem_malloc example_memory.2 10).2.1.mem_free example_memory.2 65536).1._stks
      = (((example_memory.1.mem_malloc example_memory.2 10).2.1).free_stack Tier.small).push 65536 ∧
    ((example_memory.1.mem_malloc example_memory.2 10).2.1.mem_free example_memory.2 65536).2
      = example_memory.2 :=
  ⟨by decide,
   ((mem_free_classifies_by_range (example_memory.1.mem_malloc example_memory.2 10).2.1
      example_memory.2 65536).2.2.1 Tier.small (by decide) (by decide)).1,
   ((mem_free_classifies_by_range (example_memory.1.mem_malloc example_memory.2 10).2.1
      example_memory.2 65536).2.2.1 Tier.small (by decide) (by decide)).2.2.1⟩

/-! ## `cHttpsWorkThread::MakeWsSend` -/

theorem and_ff_eq_mod (n : Nat) : n &&& 0xFF = n % 256 :=
  Nat.and_pow_two_sub_one_eq_mod n 8

theorem and_ff00_shift_eq (n : Nat) : (n &&& 0xFF00) >>> 8 = n / 256 % 256 := by
  have h1 : n / 256 % 256 = (n >>> 8) &&& (2 ^ 8 - 1) := by
    rw [Nat.and_pow_two_sub_one_eq_mod, Nat.shiftRight_eq_div_pow]
  rw [h1]
  apply Nat.eq_of_testBit_eq
  intro i
  have h2 : (0xFF00 : Nat) = (2 ^ 8 - 1) <<< 8 := by decide
  rw [h2]
  simp only [Nat.testBit_shiftRight, Nat.testBit_and, Nat.testBit_shiftLeft,
    Nat.testBit_two_pow_sub_one]
  simp

theorem first_byte_eq (wsopt : Nat) :
    (0x80 ||| (0x0F &&& wsopt)) % 256 = 0x80 ||| (wsopt &&& 0x0F) := by
  have hlt : 0x0F &&& wsopt < 2 ^ 4 := by
    rw [Nat.and_comm]
    exact Nat.and_lt_two_pow wsopt (by decide)
  rw [Nat.and_comm wsopt 0x0F]
  generalize 0x0F &&& wsopt = x at hlt
  have hx : x < 16 := hlt
  interval_cases x <;> decide

theorem first_byte_fin (wsopt : Nat) : (0x80 ||| (wsopt &&& 0x0F)) &&& 0x80 = 0x80 := by
  have hlt : wsopt &&& 0x0F < 2 ^ 4 := Nat.and_lt_two_pow wsopt (by decide)
  generalize wsopt &&& 0x0F = x at hlt
  have hx : x < 16 := hlt
  interval_cases x <;> decide

theorem first_byte_lt (wsopt : Nat) : 0x80 ||| (wsopt &&& 0x0F) < 256 := by
  have hlt : wsopt &&& 0x0F < 2 ^ 4 := Nat.and_lt_two_pow wsopt (by decide)
  generalize wsopt &&& 0x0F = x at hlt
  have hx : x < 16 := hlt
  interval_cases x <;> decide

/-- The frame produced for a payload shorter than 126 bytes. -/
theorem MakeWsSend_short (pdata : List Nat) (wsopt : Nat) (h : pdata.length < 126) :
    MakeWsSend pdata wsopt
      = (true, [0x80 ||| (wsopt &&& 0x0F), pdata.length] ++ pdata) := by
  have hm : pdata.length % 256 = pdata.length := Nat.mod_eq_of_lt (by omega)
  have hb := first_byte_lt wsopt
  have hb' : (0x80 ||| (wsopt &&& 0x0F)) % 256 = 0x80 ||| (wsopt &&& 0x0F) :=
    Nat.mod_eq_of_lt hb
  simp only [MakeWsSend, h, if_true, first_byte_eq, hm, hb']
  simp

/-- The frame produced for every payload of 126 bytes or more: the test
`uc < 65536` on the `unsigned char` always succeeds. -/
theorem MakeWsSend_long (pdata : List Nat) (wsopt : Nat) (h : 126 ≤ pdata.length) :
    MakeWsSend pdata wsopt
      = (true, [0x80 ||| (wsopt &&& 0x0F), 126, pdata.length / 256 % 256,
                pdata.length % 256] ++ pdata) := by
  have h1 : ¬ pdata.length < 126 := by omega
  have hb := first_byte_lt wsopt
  have hb' : (0x80 ||| (wsopt &&& 0x0F)) % 256 = 0x80 ||| (wsopt &&& 0x0F) :=
    Nat.mod_eq_of_lt hb
  have h2 : 0x80 ||| (wsopt &&& 0x0F) < 65536 := lt_trans hb (by decide)
  have e1 := and_ff00_shift_eq pdata.length
  have e2 := and_ff_eq_mod pdata.length
  simp only [MakeWsSend, h1, if_false, first_byte_eq, h2, if_true, e1, e2, hb']
  simp

theorem and_mask_bit_of_lt : ∀ n, n < 127 → n &&& 0x80 = 0 := by
  decide

/-- Claim C3, evaluated where the code departs from it. For a payload of 65536
zero bytes and opcode 2 the frame starts with `0x82, 126, 0x00, 0x00`: the
second test of the length encoding, `uc < 65536`, reads the `unsigned char`
that holds the first byte and always succeeds, so the 126-prefixed 16-bit
encoding is produced with the length truncated to its low 16 bits (here 0), and
the 127-prefixed encoding never is. -/
theorem MakeWsSend_65536_takes_16_bit_branch :
    MakeWsSend (List.replicate 65536 0) 2
      = (true, [0x82, 126, 0, 0] ++ List.replicate 65536 0) := by
  rw [MakeWsSend_long (List.replicate 65536 0) 2
    ((List.length_replicate _ _).ge.trans' (by decide)), List.length_replicate]
  rfl

/-- Claim C4: for every payload of length `n <= 65535` and every opcode,
`MakeWsSend` returns the byte `0x80 | (opcode & 0x0F)`, then the single byte `n`
if `n < 126` and otherwise the byte 126 followed by the two bytes `n / 256`,
`n % 256` of `n` in big-endian order, then the payload bytes unchanged. The FIN
bit `0x80` of the first byte is set and the mask bit `0x80` of the second byte
is clear. -/
theorem MakeWsSend_frame_upto_65535 (pdata : List Nat) (wsopt : Nat)
    (h : pdata.length ≤ 65535) :
    MakeWsSend pdata wsopt =
      (true, [0x80 ||| (wsopt &&& 0x0F)] ++
        (if pdata.length < 126 then [pdata.length]
         else [126, pdata.length / 256, pdata.length % 256]) ++ pdata) ∧
    ((MakeWsSend pdata wsopt).2.getD 0 0) &&& 0x80 = 0x80 ∧
    ((MakeWsSend pdata wsopt).2.getD 1 0) &&& 0x80 = 0 := by
  by_cases hlt : pdata.length < 126
  · rw [MakeWsSend_short pdata wsopt hlt]
    refine ⟨by simp [hlt], ?_, ?_⟩
    · simpa using first_byte_fin wsopt
    · simpa using and_mask_bit_of_lt pdata.length (by omega)
  · rw [MakeWsSend_long pdata wsopt (by omega)]
    have hd : pdata.length / 256 % 256 = pdata.length / 256 :=
      Nat.mod_eq_of_lt (by omega)
    refine ⟨by simp [hlt, hd], ?_, ?_⟩
    · simpa using first_byte_fin wsopt
    · simp only [List.cons_append, List.getD_cons_succ, List.getD_cons_zero]
      decide

/-- Claim C4 at the boundary lengths: payloads of 0, 125, 126 and 65535 bytes
with opcode 2 give the frames starting `0x82 0`, `0x82 125`, `0x82 126 0 126`
and `0x82 126 255 255`. -/
theorem MakeWsSend_frame_upto_65535_witness :
    MakeWsSend [] 2 = (true, [0x82, 0]) ∧
    MakeWsSend (List.replicate 125 7) 2 = (true, [0x82, 125] ++ List.replicate 125 7) ∧
    MakeWsSend (List.replicate 126 7) 2
      = (true, [0x82, 126, 0, 126] ++ List.replicate 126 7) ∧
    MakeWsSend (List.replicate 65535 7) 2
      = (true, [0x82, 126, 255, 255] ++ List.replicate 65535 7) :=
  ⟨(MakeWsSend_frame_upto_65535 [] 2 (by decide)).1.trans (by rfl),
   (MakeWsSend_frame_upto_65535 (List.replicate 125 7) 2
      ((List.length_replicate _ _).le.trans (by decide))).1.trans
      (by rw [List.length_replicate]; rfl),
   (MakeWsSend_frame_upto_65535 (List.replicate 126 7) 2
      ((List.length_replicate _ _).le.trans (by decide))).1.trans
      (by rw [List.length_replicate]; rfl),
   (MakeWsSend_frame_upto_65535 (List.replicate 65535 7) 2
      ((List.length_replicate _ _).le.trans (by decide))).1.trans
      (by rw [List.length_replicate]; rfl)⟩

/-! ## The constructor rounds the block sizes -/

theorem round_blksize_rounds_up (s : Nat) (h : s + SIZEOF_SIZE_T * 2 < SIZE_T_RANGE) :
    rounds_up s (round_blksize s) := by
  unfold rounds_up round_blksize
  simp only [SIZEOF_SIZE_T, SIZE_T_RANGE, Nat.reduceMul] at h ⊢
  split_ifs with hm
  · have e : (s + (16 - s % 16)) % 18446744073709551616 = s + (16 - s % 16) :=
      Nat.mod_eq_of_lt (by omega)
    rw [e]
    refine ⟨by omega, by omega, ?_, by omega, by omega⟩
    intro k hk hsk
    omega
  · simp only [ne_eq, not_not] at hm
    refine ⟨by omega, le_refl _, ?_, ?_, by omega⟩
    · intro k _ hsk
      exact hsk
    · intro _
      rfl

/-- Claim C12: for each of the three tiers and every configured size `s` with
`s + 2 * sizeof(size_t)` representable in `size_t`, the block size stored by the
constructor is the least multiple of `2 * sizeof(size_t)` (16 on the 64-bit
target) that is at least `s`: a size that is already such a multiple (0
included) is kept unchanged, and any other size grows by less than 16. -/
theorem constructor_rounds_block_sizes
    (sblksize sblknum mblksize mblknum lblksize lblknum : Nat) (h : Heap) :
    (sblksize + SIZEOF_SIZE_T * 2 < SIZE_T_RANGE →
      rounds_up sblksize
        (memory.construct sblksize sblknum mblksize mblknum lblksize lblknum h).1._sz_s) ∧
    (mblksize + SIZEOF_SIZE_T * 2 < SIZE_T_RANGE →
      rounds_up mblksize
        (memory.construct sblksize sblknum mblksize mblknum lblksize lblknum h).1._sz_m) ∧
    (lblksize + SIZEOF_SIZE_T * 2 < SIZE_T_RANGE →
      rounds_up lblksize
        (memory.construct sblksize sblknum mblksize mblknum lblksize lblknum h).1._sz_l) :=
  ⟨round_blksize_rounds_up sblksize, round_blksize_rounds_up mblksize,
    round_blksize_rounds_up lblksize⟩

/-- Claim C12 at concrete inputs: `memory(10, 2, 1024, 2, 0, 0)` stores the
block sizes 16, 1024 and 0. -/
theorem constructor_rounds_block_sizes_witness :
    rounds_up 10 (memory.construct 10 2 1024 2 0 0 { answers := [], calls := [] }).1._sz_s ∧
    (memory.construct 10 2 1024 2 0 0 { answers := [], calls := [] }).1._sz_s = 16 ∧
    rounds_up 1024 (memory.construct 10 2 1024 2 0 0 { answers := [], calls := [] }).1._sz_m ∧
    (memory.construct 10 2 1024 2 0 0 { answers := [], calls := [] }).1._sz_m = 1024 ∧
    rounds_up 0 (memory.construct 10 2 1024 2 0 0 { answers := [], calls := [] }).1._sz_l ∧
    (memory.construct 10 2 1024 2 0 0 { answers := [], calls := [] }).1._sz_l = 0 :=
  ⟨(constructor_rounds_block_sizes 10 2 1024 2 0 0 { answers := [], calls := [] }).1 (by decide),
   by decide,
   (constructor_rounds_block_sizes 10 2 1024 2 0 0 { answers := [], calls := [] }).2.1
     (by decide),
   by decide,
   (constructor_rounds_block_sizes 10 2 1024 2 0 0 { answers := [], calls := [] }).2.2
     (by decide),
   by decide⟩

/-! ## Runs of the allocator: how a call changes the state -/

theorem malloc_state_eq (m : memory) (h : Heap) (size : Nat) :
    (m.malloc h size).2.2 = (m.mem_malloc h size).2 := by
  rw [malloc_eq, mem_malloc_eq]
  cases m.selected_tier size with
  | none => simp
  | some t =>
    simp only
    cases ((m.materialise h t).1.free_stack t).items <;> simp

theorem malloc_result_eq (m : memory) (h : Heap) (size : Nat) :
    (m.malloc h size).1 = (m.mem_malloc h size).1 := by
  rw [malloc_eq, mem_malloc_eq]
  cases m.selected_tier size with
  | none => simp
  | some t =>
    simp only
    cases ((m.materialise h t).1.free_stack t).items <;> simp

theorem owner_in_range (m : memory) (p : Ptr) (t : Tier) (ho : m.owner p = some t) :
    m.in_range t p := by
  unfold memory.owner at ho
  have := List.find?_some ho
  simpa using this

/-- A property of the allocator that is kept by materialising an arena, by
popping a free stack and by pushing a released address onto the free stack of
the tier that claims it, is kept by every call. -/
theorem call_preserves (P : memory → Prop)
    (hmat : ∀ m h t, P m → P (m.materialise h t).1)
    (hpop : ∀ m t p rest, P m → (m.free_stack t).items = p :: rest →
      P (m.set_free_stack t { capacity := (m.free_stack t).capacity, items := rest }))
    (hpush : ∀ m t p, P m → p ≠ 0 → m.owner p = some t →
      P (m.set_free_stack t ((m.free_stack t).push p)))
    (s : memory × Heap) (c : MemCall) (hs : P s.1) : P (memory.call s c).1 := by
  have halloc : ∀ size, P (s.1.mem_malloc s.2 size).2.1 := by
    intro size
    rw [mem_malloc_eq]
    cases ht : s.1.selected_tier size with
    | none => exact hs
    | some t =>
      simp only
      cases hi : ((s.1.materialise s.2 t).1.free_stack t).items with
      | nil => exact hmat _ _ _ hs
      | cons p rest => exact hpop _ t p rest (hmat _ _ _ hs) hi
  cases c with
  | mem_malloc size => exact halloc size
  | malloc size =>
    show P (s.1.malloc s.2 size).2.2.1
    rw [malloc_state_eq]
    exact halloc size
  | mem_free p =>
    show P (s.1.mem_free s.2 p).1
    by_cases hp : p = 0
    · simpa [memory.mem_free, hp] using hs
    · rw [mem_free_eq _ _ _ hp]
      cases ho : s.1.owner p with
      | none => exact hs
      | some t => exact hpush _ t p hs hp ho

theorem run_preserves (P : memory → Prop)
    (hmat : ∀ m h t, P m → P (m.materialise h t).1)
    (hpop : ∀ m t p rest, P m → (m.free_stack t).items = p :: rest →
      P (m.set_free_stack t { capacity := (m.free_stack t).capacity, items := rest }))
    (hpush : ∀ m t p, P m → p ≠ 0 → m.owner p = some t →
      P (m.set_free_stack t ((m.free_stack t).push p)))
    (calls : List MemCall) (s : memory × Heap) (hs : P s.1) : P (memory.run calls s).1 := by
  induction calls generalizing s with
  | nil => simpa [memory.run] using hs
  | cons c cs ih =>
    have := ih (memory.call s c) (call_preserves P hmat hpop hpush s c hs)
    simpa [memory.run] using this
/-! ## How the parts of a call change the state -/

theorem set_free_stack_self (m : memory) (t : Tier) (s : stack) :
    (m.set_free_stack t s).free_stack t = s := by
  cases t <;> rfl

theorem set_free_stack_config (m : memory) (t t' : Tier) (s : stack) :
    (m.set_free_stack t s).block_size t' = m.block_size t' ∧
    (m.set_free_stack t s).block_count t' = m.block_count t' := by
  cases t <;> cases t' <;> exact ⟨rfl, rfl⟩

theorem materialise_config (m : memory) (h : Heap) (t t' : Tier) :
    (m.materialise h t).1.block_size t' = m.block_size t' ∧
    (m.materialise h t).1.block_count t' = m.block_count t' := by
  cases t <;> cases t' <;>
    simp only [memory.materialise, memory.block_size, memory.block_count] <;>
    (try split_ifs) <;> simp

theorem materialise_cases (m : memory) (h : Heap) (t : Tier) :
    (m.materialise h t).1 = m ∨
    (t ≠ Tier.small ∧ m.arena t = 0 ∧ m.enabled t ∧ (m.materialise h t).1.arena t ≠ 0 ∧
      (m.materialise h t).1.arena t
        = (h.sys_malloc (m.block_size t * m.block_count t % SIZE_T_RANGE)).1 ∧
      (m.materialise h t).1.free_stack t
        = malloc_block_loop (m.block_size t) (m.block_count t)
            ((m.materialise h t).1.arena t) (m.free_stack t)) := by
  cases t with
  | small => left; rfl
  | medium =>
    simp only [memory.materialise, memory.arena, memory.enabled, memory.block_size,
      memory.block_count, memory.free_stack]
    by_cases hp : m._pm = 0
    · simp only [hp, if_true, malloc_block]
      by_cases hd : m._blk_m = 0 ∨ m._sz_m = 0
      · left
        simp only [hd, if_true]
        cases m
        simp_all
      · simp only [hd, if_false]
        by_cases hr : (h.sys_malloc (m._sz_m * m._blk_m % SIZE_T_RANGE)).1 = 0
        · left
          simp only [hr, ne_eq, not_true_eq_false, if_false]
          cases m
          simp_all
        · right
          push_neg at hd
          simp only [hr, ne_eq, not_false_eq_true, if_true]
          simp [hd.1, hd.2, hr]
    · left
      simp [hp]
  | large =>
    simp only [memory.materialise, memory.arena, memory.enabled, memory.block_size,
      memory.block_count, memory.free_stack]
    by_cases hp : m._pl = 0
    · simp only [hp, if_true, malloc_block]
      by_cases hd : m._blk_l = 0 ∨ m._sz_l = 0
      · left
        simp only [hd, if_true]
        cases m
        simp_all
      · simp only [hd, if_false]
        by_cases hr : (h.sys_malloc (m._sz_l * m._blk_l % SIZE_T_RANGE)).1 = 0
        · left
          simp only [hr, ne_eq, not_true_eq_false, if_false]
          cases m
          simp_all
        · right
          push_neg at hd
          simp only [hr, ne_eq, not_false_eq_true, if_true]
          simp [hd.1, hd.2, hr]
    · left
      simp [hp]

theorem push_capacity (s : stack) (v : Ptr) : (s.push v).capacity = s.capacity := by
  unfold stack.push
  split_ifs <;> rfl

theorem push_items (s : stack) (v : Ptr) :
    (s.push v).items = s.items ∨ (s.push v).items = v :: s.items := by
  unfold stack.push
  split_ifs
  · right; rfl
  · left; rfl

theorem push_bounded (s : stack) (v : Ptr) (hs : s.items.length ≤ s.capacity) :
    (s.push v).items.length ≤ (s.push v).capacity := by
  unfold stack.push
  split_ifs with h
  · simpa using h
  · exact hs

theorem foldl_add_capacity (g : Nat → Ptr) (l : List Nat) (stk : stack) :
    (l.foldl (fun s i => s.add (g i)) stk).capacity = stk.capacity := by
  induction l generalizing stk with
  | nil => rfl
  | cons i l ih =>
    rw [List.foldl_cons, ih]
    exact push_capacity stk (g i)

theorem foldl_add_mem (g : Nat → Ptr) (l : List Nat) (stk : stack) (x : Ptr)
    (hx : x ∈ (l.foldl (fun s i => s.add (g i)) stk).items) :
    x ∈ stk.items ∨ ∃ i ∈ l, x = g i := by
  induction l generalizing stk with
  | nil => left; exact hx
  | cons i l ih =>
    rw [List.foldl_cons] at hx
    rcases ih _ hx with h1 | ⟨j, hj, hxj⟩
    · rcases push_items stk (g i) with e | e
      · left
        rw [stack.add, e] at h1
        exact h1
      · rw [stack.add, e] at h1
        rcases List.mem_cons.1 h1 with h2 | h2
        · right
          exact ⟨i, List.mem_cons_self _ _, h2⟩
        · left
          exact h2
    · right
      exact ⟨j, List.mem_cons_of_mem _ hj, hxj⟩

theorem foldl_add_bounded (g : Nat → Ptr) (l : List Nat) (stk : stack)
    (hs : stk.items.length ≤ stk.capacity) :
    (l.foldl (fun s i => s.add (g i)) stk).items.length
      ≤ (l.foldl (fun s i => s.add (g i)) stk).capacity := by
  induction l generalizing stk with
  | nil => exact hs
  | cons i l ih =>
    rw [List.foldl_cons]
    exact ih _ (push_bounded stk (g i) hs)

theorem foldl_add_nodup (g : Nat → Ptr) (l : List Nat) (stk : stack)
    (hl : l.Nodup) (hg : ∀ i ∈ l, ∀ j ∈ l, g i = g j → i = j)
    (hd : ∀ x ∈ stk.items, ∀ i ∈ l, x ≠ g i) (hs : stk.items.Nodup) :
    (l.foldl (fun s i => s.add (g i)) stk).items.Nodup := by
  induction l generalizing stk with
  | nil => exact hs
  | cons i l ih =>
    rw [List.foldl_cons]
    have hl' := List.nodup_cons.1 hl
    apply ih _ hl'.2
    · intro a ha b hb hab
      exact hg a (List.mem_cons_of_mem _ ha) b (List.mem_cons_of_mem _ hb) hab
    · intro x hx j hj
      rcases push_items stk (g i) with e | e
      · rw [stack.add, e] at hx
        exact hd x hx j (List.mem_cons_of_mem _ hj)
      · rw [stack.add, e] at hx
        rcases List.mem_cons.1 hx with h2 | h2
        · intro hxj
          have := hg i (List.mem_cons_self _ _) j (List.mem_cons_of_mem _ hj) (h2 ▸ hxj)
          exact hl'.1 (this ▸ hj)
        · exact hd x h2 j (List.mem_cons_of_mem _ hj)
    · rcases push_items stk (g i) with e | e
      · rw [stack.add, e]
        exact hs
      · rw [stack.add, e]
        refine List.nodup_cons.2 ⟨?_, hs⟩
        intro hmem
        exact hd (g i) hmem i (List.mem_cons_self _ _) rfl

theorem block_address_eq (p bs bc k : Nat) (hk : k < bc)
    (hfit : p + bs * bc < SIZE_T_RANGE) : (p + k * bs) % SIZE_T_RANGE = p + k * bs := by
  apply Nat.mod_eq_of_lt
  have h1 : k * bs ≤ bs * bc := by
    rw [Nat.mul_comm bs bc]
    exact Nat.mul_le_mul_right bs (le_of_lt hk)
  exact lt_of_le_of_lt (Nat.add_le_add_left h1 p) hfit

theorem block_address_lt (p bs bc k : Nat) (hk : k < bc) (hbs : bs ≠ 0) :
    p + k * bs < p + bs * bc := by
  have h1 : (k + 1) * bs ≤ bc * bs := Nat.mul_le_mul_right bs hk
  have h2 : k * bs < (k + 1) * bs := by
    rw [Nat.succ_mul]
    exact Nat.lt_add_of_pos_right (Nat.pos_of_ne_zero hbs)
  rw [Nat.mul_comm bs bc]
  exact Nat.add_lt_add_left (lt_of_lt_of_le h2 h1) p

/-- The addresses `malloc_block` stores are those already on the stack and the
block starts `p + k * blksize`, `k < blknum`, taken modulo `2 ^ 64`. -/
theorem malloc_block_loop_mem (bs bc : Nat) (p : Ptr) (stk : stack) (x : Ptr)
    (hx : x ∈ (malloc_block_loop bs bc p stk).items) :
    x ∈ stk.items ∨ ∃ k, k < bc ∧ x = (p + k * bs) % SIZE_T_RANGE := by
  unfold malloc_block_loop at hx
  rcases foldl_add_mem (fun i => (p + (bc - 1 - i) * bs) % SIZE_T_RANGE) _ stk x hx with
    h1 | ⟨i, hi, hxi⟩
  · left; exact h1
  · right
    have hi' : i < bc := List.mem_range.1 hi
    exact ⟨bc - 1 - i, by omega, hxi⟩
theorem free_stack_set_free_stack (m : memory) (t t' : Tier) (s : stack) :
    (m.set_free_stack t s).free_stack t' = if t' = t then s else m.free_stack t' := by
  cases t <;> cases t' <;> simp [memory.set_free_stack, memory.free_stack]

/-- The state the constructor leaves: the medium and large tiers have no arena
and an empty free stack; the small tier either has no arena and an empty free
stack, or is enabled and has the arena the heap returned, with the free stack
filled by `malloc_block`. -/
theorem construct_state (a b c d e f : Nat) (h : Heap) :
    (∀ t, ((memory.construct a b c d e f h).1.free_stack t).capacity
        = (memory.construct a b c d e f h).1.block_count t) ∧
    (memory.construct a b c d e f h).1.arena Tier.medium = 0 ∧
    (memory.construct a b c d e f h).1.arena Tier.large = 0 ∧
    ((memory.construct a b c d e f h).1.free_stack Tier.medium).items = [] ∧
    ((memory.construct a b c d e f h).1.free_stack Tier.large).items = [] ∧
    (((memory.construct a b c d e f h).1.arena Tier.small = 0 ∧
        ((memory.construct a b c d e f h).1.free_stack Tier.small).items = []) ∨
      ((memory.construct a b c d e f h).1.enabled Tier.small ∧
        (memory.construct a b c d e f h).1.arena Tier.small ≠ 0 ∧
        (memory.construct a b c d e f h).1.arena Tier.small
          = (h.sys_malloc (round_blksize a * b % SIZE_T_RANGE)).1 ∧
        (memory.construct a b c d e f h).1.free_stack Tier.small
          = malloc_block_loop (round_blksize a) b
              ((memory.construct a b c d e f h).1.arena Tier.small) (stack.init b))) := by
  refine ⟨?_, rfl, rfl, rfl, rfl, ?_⟩
  · intro t
    cases t
    · simp only [memory.construct, memory.free_stack, memory.block_count, malloc_block]
      split_ifs
      · rfl
      · simp only [malloc_block_loop]
        rw [foldl_add_capacity]
        rfl
      · rfl
    · rfl
    · rfl
  · simp only [memory.construct, memory.arena, memory.free_stack, memory.enabled,
      memory.block_size, memory.block_count, malloc_block]
    by_cases hd : b = 0 ∨ round_blksize a = 0
    · left
      simp [hd, stack.init]
    · simp only [hd, if_false]
      by_cases hr : (h.sys_malloc (round_blksize a * b % SIZE_T_RANGE)).1 = 0
      · left
        simp [hr, stack.init]
      · right
        push_neg at hd
        simp [hr, hd.1, hd.2]

theorem construct_stacks_in_arena (a b c d e f : Nat) (h : Heap) :
    (memory.construct a b c d e f h).1.stacks_in_arena := by
  obtain ⟨_, hm, hl, him, hil, hs⟩ := construct_state a b c d e f h
  intro t
  cases t with
  | medium => exact ⟨fun _ => him, fun _ x hx => by rw [him] at hx; cases hx⟩
  | large => exact ⟨fun _ => hil, fun _ x hx => by rw [hil] at hx; cases hx⟩
  | small =>
    rcases hs with ⟨h0, hi⟩ | ⟨hen, hne, _, hst⟩
    · exact ⟨fun _ => hi, fun _ x hx => by rw [hi] at hx; cases hx⟩
    · refine ⟨fun h0 => absurd h0 hne, ?_⟩
      intro hfit x hx
      rw [hst] at hx
      rcases malloc_block_loop_mem _ _ _ _ x hx with h1 | ⟨k, hk, hxk⟩
      · cases h1
      · have hfit' : (memory.construct a b c d e f h).1.arena Tier.small
            + round_blksize a * b < SIZE_T_RANGE := hfit
        rw [block_address_eq _ _ _ k hk hfit'] at hxk
        subst hxk
        exact ⟨Nat.le_add_right _ _, block_address_lt _ _ _ k hk hen.1⟩

theorem materialise_stacks_in_arena (m : memory) (h : Heap) (t : Tier)
    (hm : m.stacks_in_arena) : (m.materialise h t).1.stacks_in_arena := by
  rcases materialise_cases m h t with e | ⟨_, h0, hen, hne, _, hst⟩
  · rw [e]; exact hm
  · intro t'
    by_cases htt : t' = t
    · subst htt
      refine ⟨fun h0' => absurd h0' hne, ?_⟩
      intro hfit x hx
      unfold memory.arena_fits at hfit
      unfold memory.in_arena
      rw [(materialise_config m h t' t').1, (materialise_config m h t' t').2] at hfit ⊢
      rw [hst] at hx
      rcases malloc_block_loop_mem _ _ _ _ x hx with h1 | ⟨k, hk, hxk⟩
      · rw [(hm t').1 h0] at h1
        cases h1
      · rw [block_address_eq _ _ _ k hk hfit] at hxk
        subst hxk
        exact ⟨Nat.le_add_right _ _, block_address_lt _ _ _ k hk hen.1⟩
    · have ho := materialise_free_stack_other m h t t' htt
      have hc := materialise_config m h t t'
      unfold memory.arena_fits memory.in_arena
      rw [ho.1, ho.2, hc.1, hc.2]
      exact hm t'

theorem pop_stacks_in_arena (m : memory) (t : Tier) (p : Ptr) (rest : List Ptr)
    (hm : m.stacks_in_arena) (hi : (m.free_stack t).items = p :: rest) :
    (m.set_free_stack t
      { capacity := (m.free_stack t).capacity, items := rest }).stacks_in_arena := by
  intro t'
  unfold memory.arena_fits memory.in_arena
  rw [set_free_stack_arena, (set_free_stack_config m t t' _).1,
    (set_free_stack_config m t t' _).2, free_stack_set_free_stack]
  by_cases htt : t' = t
  · subst htt
    simp only [if_true]
    refine ⟨?_, ?_⟩
    · intro h0
      rw [(hm t').1 h0] at hi
      cases hi
    · intro hfit x hx
      exact (hm t').2 hfit x (by rw [hi]; exact List.mem_cons_of_mem _ hx)
  · simp only [htt, if_false]
    exact hm t'

theorem in_range_in_arena (m : memory) (t : Tier) (p : Ptr) (hr : m.in_range t p)
    (hfit : m.arena_fits t) : m.in_arena t p := by
  unfold memory.in_range at hr
  unfold memory.arena_fits at hfit
  rw [add_mod_size_t _ _ hfit] at hr
  exact ⟨hr.2.1, hr.2.2⟩

theorem in_arena_in_range (m : memory) (t : Tier) (p : Ptr) (ha : m.in_arena t p)
    (h0 : m.arena t ≠ 0) (hfit : m.arena_fits t) : m.in_range t p := by
  unfold memory.in_range
  unfold memory.arena_fits at hfit
  rw [add_mod_size_t _ _ hfit]
  exact ⟨h0, ha.1, ha.2⟩

theorem push_stacks_in_arena (m : memory) (t : Tier) (p : Ptr)
    (hm : m.stacks_in_arena) (ho : m.owner p = some t) :
    (m.set_free_stack t ((m.free_stack t).push p)).stacks_in_arena := by
  have hr := owner_in_range m p t ho
  intro t'
  unfold memory.arena_fits memory.in_arena
  rw [set_free_stack_arena, (set_free_stack_config m t t' _).1,
    (set_free_stack_config m t t' _).2, free_stack_set_free_stack]
  by_cases htt : t' = t
  · subst htt
    simp only [if_true]
    refine ⟨fun h0 => absurd h0 hr.1, ?_⟩
    intro hfit x hx
    rcases push_items (m.free_stack t') p with e | e
    · rw [e] at hx
      exact (hm t').2 hfit x hx
    · rw [e] at hx
      rcases List.mem_cons.1 hx with h1 | h1
      · subst h1
        exact in_range_in_arena m t' x hr hfit
      · exact (hm t').2 hfit x h1
  · simp only [htt, if_false]
    exact hm t'

theorem run_stacks_in_arena (calls : List MemCall) (s : memory × Heap)
    (hs : s.1.stacks_in_arena) : (memory.run calls s).1.stacks_in_arena :=
  run_preserves memory.stacks_in_arena
    (fun m h t hm => materialise_stacks_in_arena m h t hm)
    (fun m t p rest hm hi => pop_stacks_in_arena m t p rest hm hi)
    (fun m t p hm _ ho => push_stacks_in_arena m t p hm ho) calls s hs

/-- Claim C18: after the constructor and any sequence of `mem_malloc`, `malloc`
and `mem_free` calls on arbitrary sizes and arbitrary pointers, on a heap that
answers arbitrarily, every address held on the free stack of a tier lies within
the arena range `[arena, arena + block_size * block_count)` of that tier,
provided that `arena + block_size * block_count` does not overflow `size_t`
(for a tier without arena this is `block_size * block_count` itself). The free
stack of a tier without arena is empty. -/
theorem free_stack_addresses_in_arena
    (sblksize sblknum mblksize mblknum lblksize lblknum : Nat) (h : Heap)
    (calls : List MemCall) (t : Tier) :
    (((memory.reached sblksize sblknum mblksize mblknum lblksize lblknum h calls).1.arena t
          + (memory.reached sblksize sblknum mblksize mblknum lblksize lblknum h calls).1.block_size t
            * (memory.reached sblksize sblknum mblksize mblknum lblksize lblknum h calls).1.block_count t
        < SIZE_T_RANGE) →
      ∀ x ∈ ((memory.reached sblksize sblknum mblksize mblknum lblksize lblknum h
          calls).1.free_stack t).items,
        (memory.reached sblksize sblknum mblksize mblknum lblksize lblknum h calls).1.arena t ≤ x ∧
        x < (memory.reached sblksize sblknum mblksize mblknum lblksize lblknum h calls).1.arena t
          + (memory.reached sblksize sblknum mblksize mblknum lblksize lblknum h calls).1.block_size t
            * (memory.reached sblksize sblknum mblksize mblknum lblksize lblknum h
                calls).1.block_count t) ∧
    ((memory.reached sblksize sblknum mblksize mblknum lblksize lblknum h calls).1.arena t = 0 →
      ((memory.reached sblksize sblknum mblksize mblknum lblksize lblknum h
          calls).1.free_stack t).items = []) := by
  have hinv := run_stacks_in_arena calls _
    (construct_stacks_in_arena sblksize sblknum mblksize mblknum lblksize lblknum h)
  exact ⟨fun hfit x hx => (hinv t).2 hfit x hx, (hinv t).1⟩
/-- Claim C18 at a concrete input: after `memory(64, 2, 1024, 2)`, an allocation
and the release of the interior address 65540, the small free stack holds 65540
and 65600, both inside the small arena `[65536, 65536 + 64 * 2)`. -/
theorem free_stack_addresses_in_arena_witness :
    ((memory.reached 64 2 1024 2 0 0 { answers := [65536, 131072], calls := [] }
        [MemCall.mem_malloc 10, MemCall.mem_free 65540]).1.free_stack Tier.small).items
      = [65540, 65600] ∧
    ∀ x ∈ ((memory.reached 64 2 1024 2 0 0 { answers := [65536, 131072], calls := [] }
        [MemCall.mem_malloc 10, MemCall.mem_free 65540]).1.free_stack Tier.small).items,
      (memory.reached 64 2 1024 2 0 0 { answers := [65536, 131072], calls := [] }
        [MemCall.mem_malloc 10, MemCall.mem_free 65540]).1.arena Tier.small ≤ x ∧
      x < (memory.reached 64 2 1024 2 0 0 { answers := [65536, 131072], calls := [] }
        [MemCall.mem_malloc 10, MemCall.mem_free 65540]).1.arena Tier.small
        + (memory.reached 64 2 1024 2 0 0 { answers := [65536, 131072], calls := [] }
            [MemCall.mem_malloc 10, MemCall.mem_free 65540]).1.block_size Tier.small
          * (memory.reached 64 2 1024 2 0 0 { answers := [65536, 131072], calls := [] }
            [MemCall.mem_malloc 10, MemCall.mem_free 65540]).1.block_count Tier.small :=
  ⟨by decide,
   (free_stack_addresses_in_arena 64 2 1024 2 0 0 { answers := [65536, 131072], calls := [] }
      [MemCall.mem_malloc 10, MemCall.mem_free 65540] Tier.small).1 (by decide)⟩

/-! ## The free stacks respect their bound -/

theorem malloc_block_loop_bounded (bs bc : Nat) (p : Ptr) (stk : stack)
    (hs : stk.items.length ≤ stk.capacity) :
    (malloc_block_loop bs bc p stk).items.length ≤ (malloc_block_loop bs bc p stk).capacity :=
  foldl_add_bounded _ _ stk hs

theorem construct_stacks_bounded (a b c d e f : Nat) (h : Heap) :
    (memory.construct a b c d e f h).1.stacks_bounded := by
  obtain ⟨_, _, _, him, hil, hs⟩ := construct_state a b c d e f h
  intro t
  cases t with
  | medium => rw [him]; exact Nat.zero_le _
  | large => rw [hil]; exact Nat.zero_le _
  | small =>
    rcases hs with ⟨_, hi⟩ | ⟨_, _, _, hst⟩
    · rw [hi]; exact Nat.zero_le _
    · rw [hst]
      exact malloc_block_loop_bounded _ _ _ _ (Nat.zero_le _)

theorem materialise_stacks_bounded (m : memory) (h : Heap) (t : Tier)
    (hm : m.stacks_bounded) : (m.materialise h t).1.stacks_bounded := by
  rcases materialise_cases m h t with e | ⟨_, _, _, _, _, hst⟩
  · rw [e]; exact hm
  · intro t'
    by_cases htt : t' = t
    · subst htt
      rw [hst]
      exact malloc_block_loop_bounded _ _ _ _ (hm t')
    · rw [(materialise_free_stack_other m h t t' htt).1]
      exact hm t'

theorem pop_stacks_bounded (m : memory) (t : Tier) (p : Ptr) (rest : List Ptr)
    (hm : m.stacks_bounded) (hi : (m.free_stack t).items = p :: rest) :
    (m.set_free_stack t
      { capacity := (m.free_stack t).capacity, items := rest }).stacks_bounded := by
  intro t'
  rw [free_stack_set_free_stack]
  by_cases htt : t' = t
  · subst htt
    simp only [if_true]
    have := hm t'
    rw [hi] at this
    exact le_trans (Nat.le_succ _) this
  · simp only [htt, if_false]
    exact hm t'

theorem push_stacks_bounded (m : memory) (t : Tier) (p : Ptr) (hm : m.stacks_bounded) :
    (m.set_free_stack t ((m.free_stack t).push p)).stacks_bounded := by
  intro t'
  rw [free_stack_set_free_stack]
  by_cases htt : t' = t
  · subst htt
    simp only [if_true]
    exact push_bounded _ p (hm t')
  · simp only [htt, if_false]
    exact hm t'

theorem run_stacks_bounded (calls : List MemCall) (s : memory × Heap)
    (hs : s.1.stacks_bounded) : (memory.run calls s).1.stacks_bounded :=
  run_preserves memory.stacks_bounded
    (fun m h t hm => materialise_stacks_bounded m h t hm)
    (fun m t p rest hm hi => pop_stacks_bounded m t p rest hm hi)
    (fun m t p hm _ _ => push_stacks_bounded m t p hm) calls s hs

theorem set_free_stack_same (m : memory) (t : Tier) :
    m.set_free_stack t (m.free_stack t) = m := by
  cases t <;> rfl

theorem set_free_stack_twice (m : memory) (t : Tier) (s s' : stack) :
    (m.set_free_stack t s).set_free_stack t s' = m.set_free_stack t s' := by
  cases t <;> rfl

/-- Popping the small free stack and releasing the popped address again, in a
state whose small arena is a region of the address space. -/
theorem small_roundtrip (m : memory) (h : Heap) (s : Nat) (p : Ptr) (rest : List Ptr)
    (hin : m.stacks_in_arena) (hb : m.stacks_bounded) (hfit : m.arena_fits Tier.small)
    (hi : (m.free_stack Tier.small).items = p :: rest) (hs : s ≤ m.block_size Tier.small) :
    m.mem_malloc h s = (p, m.set_free_stack Tier.small
        { capacity := (m.free_stack Tier.small).capacity, items := rest }, h) ∧
    m.in_arena Tier.small p ∧
    (m.mem_malloc h s).2.1.mem_free (m.mem_malloc h s).2.2 (m.mem_malloc h s).1 = (m, h) := by
  have hsel : m.selected_tier s = some Tier.small := selected_tier_small m s hs
  have e1 : m.mem_malloc h s = (p, m.set_free_stack Tier.small
        { capacity := (m.free_stack Tier.small).capacity, items := rest }, h) := by
    rw [mem_malloc_eq, hsel]
    simp only [memory.materialise, hi]
  have hpa : m.in_arena Tier.small p := (hin Tier.small).2 hfit p (by rw [hi]; simp)
  have h0 : m.arena Tier.small ≠ 0 := by
    intro h0
    rw [(hin Tier.small).1 h0] at hi
    cases hi
  have hp0 : p ≠ 0 := by
    intro hp
    have := hpa.1
    rw [hp] at this
    exact h0 (Nat.le_zero.1 this)
  refine ⟨e1, hpa, ?_⟩
  rw [e1]
  simp only
  have hr : (m.set_free_stack Tier.small
      { capacity := (m.free_stack Tier.small).capacity, items := rest }).in_range Tier.small p :=
    in_arena_in_range m Tier.small p hpa h0 hfit
  rw [mem_free_eq _ _ _ hp0, owner_small _ _ hr]
  simp only [set_free_stack_twice, set_free_stack_self]
  have hlen : rest.length < (m.free_stack Tier.small).capacity := by
    have := hb Tier.small
    rw [hi] at this
    exact this
  have hpush : stack.push { capacity := (m.free_stack Tier.small).capacity, items := rest } p
      = m.free_stack Tier.small := by
    simp only [stack.push, hlen, if_true]
    rw [← hi]
  rw [hpush, set_free_stack_same]

/-- Claim C13, amended: in every allocator state reached from construction by
any calls, whose small arena range does not overflow `size_t`
(`base + block_size * block_count < 2 ^ 64`) and whose small free stack is
non-empty, for all sizes `s` and `s'` up to the small block size:
`mem_malloc(s)` returns an address inside the small arena
`[base, base + block_size * block_count)`; releasing that pointer restores
exactly the allocator (and heap) state before the allocation; and the next
`mem_malloc(s')` returns the same pointer again. -/
theorem small_allocate_release_restores
    (sblksize sblknum mblksize mblknum lblksize lblknum : Nat) (h : Heap)
    (calls : List MemCall) (st : memory × Heap)
    (hst : st = memory.reached sblksize sblknum mblksize mblknum lblksize lblknum h calls)
    (hfit : st.1.arena Tier.small + st.1.block_size Tier.small * st.1.block_count Tier.small
      < SIZE_T_RANGE)
    (hne : (st.1.free_stack Tier.small).items ≠ [])
    (s s' : Nat) (hs : s ≤ st.1.block_size Tier.small) (hs' : s' ≤ st.1.block_size Tier.small) :
    (st.1.arena Tier.small ≤ (st.1.mem_malloc st.2 s).1 ∧
      (st.1.mem_malloc st.2 s).1
        < st.1.arena Tier.small + st.1.block_size Tier.small * st.1.block_count Tier.small) ∧
    (st.1.mem_malloc st.2 s).2.1.mem_free (st.1.mem_malloc st.2 s).2.2 (st.1.mem_malloc st.2 s).1
      = st ∧
    (((st.1.mem_malloc st.2 s).2.1.mem_free (st.1.mem_malloc st.2 s).2.2
          (st.1.mem_malloc st.2 s).1).1.mem_malloc
        ((st.1.mem_malloc st.2 s).2.1.mem_free (st.1.mem_malloc st.2 s).2.2
          (st.1.mem_malloc st.2 s).1).2 s').1
      = (st.1.mem_malloc st.2 s).1 := by
  have hin : st.1.stacks_in_arena := by
    rw [hst]
    exact run_stacks_in_arena calls _ (construct_stacks_in_arena _ _ _ _ _ _ h)
  have hb : st.1.stacks_bounded := by
    rw [hst]
    exact run_stacks_bounded calls _ (construct_stacks_bounded _ _ _ _ _ _ h)
  obtain ⟨p, rest, hi⟩ := List.exists_cons_of_ne_nil hne
  obtain ⟨e1, hpa, e2⟩ := small_roundtrip st.1 st.2 s p rest hin hb hfit hi hs
  obtain ⟨e1', _, _⟩ := small_roundtrip st.1 st.2 s' p rest hin hb hfit hi hs'
  refine ⟨?_, e2, ?_⟩
  · rw [e1]
    exact hpa
  · rw [e2, e1', e1]

/-- Claim C13, amended, at a concrete input: in the example allocator `memory(64, 2, 1024, 2)`
with small arena at 65536, `mem_malloc(10)` returns 65536, the release restores
the state, and `mem_malloc(64)` returns 65536 again. -/
theorem small_allocate_release_restores_witness :
    (example_memory.1.mem_malloc example_memory.2 10).1 = 65536 ∧
    (example_memory.1.mem_malloc example_memory.2 10).2.1.mem_free
        (example_memory.1.mem_malloc example_memory.2 10).2.2
        (example_memory.1.mem_malloc example_memory.2 10).1 = example_memory ∧
    (((example_memory.1.mem_malloc example_memory.2 10).2.1.mem_free
          (example_memory.1.mem_malloc example_memory.2 10).2.2
          (example_memory.1.mem_malloc example_memory.2 10).1).1.mem_malloc
        ((example_memory.1.mem_malloc example_memory.2 10).2.1.mem_free
          (example_memory.1.mem_malloc example_memory.2 10).2.2
          (example_memory.1.mem_malloc example_memory.2 10).1).2 64).1
      = (example_memory.1.mem_malloc example_memory.2 10).1 :=
  ⟨by decide,
   (small_allocate_release_restores 64 2 1024 2 0 0
      { answers := [65536, 131072], calls := [] } [] example_memory rfl (by decide)
      (by decide) 10 64 (by decide) (by decide)).2.1,
   (small_allocate_release_restores 64 2 1024 2 0 0
      { answers := [65536, 131072], calls := [] } [] example_memory rfl (by decide)
      (by decide) 10 64 (by decide) (by decide)).2.2⟩

/-! ## Disabled tiers -/

theorem disabled_materialise (m : memory) (h : Heap) (t : Tier)
    (hd : m.block_size t = 0 ∨ m.block_count t = 0) (h0 : m.arena t = 0) :
    m.materialise h t = (m, h) := by
  cases t with
  | small => rfl
  | medium =>
    simp only [memory.block_size, memory.block_count, memory.arena] at hd h0
    simp only [memory.materialise, h0, if_true, malloc_block]
    have : m._blk_m = 0 ∨ m._sz_m = 0 := hd.symm
    simp only [this, if_true]
    cases m
    simp_all
  | large =>
    simp only [memory.block_size, memory.block_count, memory.arena] at hd h0
    simp only [memory.materialise, h0, if_true, malloc_block]
    have : m._blk_l = 0 ∨ m._sz_l = 0 := hd.symm
    simp only [this, if_true]
    cases m
    simp_all

theorem run_disabled_empty (t : Tier) (calls : List MemCall) (s : memory × Heap)
    (hs : memory.disabled_empty t s.1) : memory.disabled_empty t (memory.run calls s).1 := by
  refine run_preserves (memory.disabled_empty t) ?_ ?_ ?_ calls s hs
  · intro m h t0 hm
    rcases materialise_cases m h t0 with e | ⟨_, _, hen, _, _, _⟩
    · rw [e]; exact hm
    · have htt : t ≠ t0 := by
        intro e
        subst e
        rcases hm.1 with h1 | h1
        · exact hen.1 h1
        · exact hen.2 h1
      have ho := materialise_free_stack_other m h t0 t htt
      have hc := materialise_config m h t0 t
      unfold memory.disabled_empty
      rw [ho.1, ho.2, hc.1, hc.2]
      exact hm
  · intro m t0 p rest hm hi
    have htt : t ≠ t0 := by
      intro e
      subst e
      rw [hm.2.2] at hi
      cases hi
    unfold memory.disabled_empty
    rw [set_free_stack_arena, (set_free_stack_config m t0 t _).1,
      (set_free_stack_config m t0 t _).2, set_free_stack_other m t0 t _ htt]
    exact hm
  · intro m t0 p hm _ ho
    have hr := owner_in_range m p t0 ho
    have htt : t ≠ t0 := by
      intro e
      subst e
      exact hr.1 hm.2.1
    unfold memory.disabled_empty
    rw [set_free_stack_arena, (set_free_stack_config m t0 t _).1,
      (set_free_stack_config m t0 t _).2, set_free_stack_other m t0 t _ htt]
    exact hm

theorem construct_disabled_empty (a b c d e f : Nat) (h : Heap) (t : Tier)
    (hd : (memory.construct a b c d e f h).1.block_size t = 0 ∨
      (memory.construct a b c d e f h).1.block_count t = 0) :
    memory.disabled_empty t (memory.construct a b c d e f h).1 := by
  obtain ⟨_, hm, hl, him, hil, hs⟩ := construct_state a b c d e f h
  cases t with
  | medium => exact ⟨hd, hm, him⟩
  | large => exact ⟨hd, hl, hil⟩
  | small =>
    rcases hs with ⟨h0, hi⟩ | ⟨hen, _, _, _⟩
    · exact ⟨hd, h0, hi⟩
    · rcases hd with h1 | h1
      · exact absurd h1 hen.1
      · exact absurd h1 hen.2
theorem run_config (t : Tier) (calls : List MemCall) (s : memory × Heap) :
    (memory.run calls s).1.block_size t = s.1.block_size t ∧
    (memory.run calls s).1.block_count t = s.1.block_count t := by
  refine run_preserves
    (fun m => m.block_size t = s.1.block_size t ∧ m.block_count t = s.1.block_count t)
    ?_ ?_ ?_ calls s ⟨rfl, rfl⟩
  · intro m h t0 hm
    rw [(materialise_config m h t0 t).1, (materialise_config m h t0 t).2]
    exact hm
  · intro m t0 p rest hm _
    rw [(set_free_stack_config m t0 t _).1, (set_free_stack_config m t0 t _).2]
    exact hm
  · intro m t0 p hm _ _
    rw [(set_free_stack_config m t0 t _).1, (set_free_stack_config m t0 t _).2]
    exact hm

/-- Claim C11, as stated, fails: with the small tier configured as size 64 /
count 0 and the medium tier as size 1024 / count 4, `mem_malloc(10)` selects the
small tier (10 <= 64), finds its free stack empty and is served by the heap
(`::malloc(10)` returns 4096); the medium tier, which is enabled and whose block
size is at least 10, is not touched and its arena is not materialised. -/
theorem disabled_small_tier_request_goes_to_heap :
    (memory.construct 64 0 1024 4 0 0 { answers := [4096, 8192], calls := [] }).1.selected_tier 10
      = some Tier.small ∧
    (memory.construct 64 0 1024 4 0 0 { answers := [4096, 8192], calls := [] }).1.enabled
      Tier.medium ∧
    10 ≤ (memory.construct 64 0 1024 4 0 0
      { answers := [4096, 8192], calls := [] }).1.block_size Tier.medium ∧
    ((memory.construct 64 0 1024 4 0 0 { answers := [4096, 8192], calls := [] }).1.mem_malloc
      (memory.construct 64 0 1024 4 0 0 { answers := [4096, 8192], calls := [] }).2 10).1 = 4096 ∧
    ((memory.construct 64 0 1024 4 0 0 { answers := [4096, 8192], calls := [] }).1.mem_malloc
      (memory.construct 64 0 1024 4 0 0 { answers := [4096, 8192], calls := [] }).2 10).2.2.calls
      = [HeapCall.malloc 10 4096] ∧
    ((memory.construct 64 0 1024 4 0 0 { answers := [4096, 8192], calls := [] }).1.mem_malloc
      (memory.construct 64 0 1024 4 0 0 { answers := [4096, 8192], calls := [] }).2 10).2.1.arena
      Tier.medium = 0 := by
  decide

/-- Claim C11, amended: a tier whose stored block size or block count is zero
(in particular one configured with size zero or count zero) is never
materialised and never hands out a block: after the constructor and any
sequence of calls its arena is absent and its free stack is empty. It still
takes part in the selection by size: a request that selects it is served by the
heap allocation of exactly the requested size, and the allocator is left
unchanged. -/
theorem disabled_tier_never_serves
    (sblksize sblknum mblksize mblknum lblksize lblknum : Nat) (h : Heap)
    (calls : List MemCall) (t : Tier) (st : memory × Heap)
    (hst : st = memory.reached sblksize sblknum mblksize mblknum lblksize lblknum h calls)
    (hd : st.1.block_size t = 0 ∨ st.1.block_count t = 0) :
    st.1.arena t = 0 ∧ (st.1.free_stack t).items = [] ∧
    (∀ size, st.1.selected_tier size = some t →
      st.1.mem_malloc st.2 size = ((st.2.sys_malloc size).1, st.1, (st.2.sys_malloc size).2)) ∧
    round_blksize 0 = 0 := by
  have hc := run_config t calls
    (memory.construct sblksize sblknum mblksize mblknum lblksize lblknum h)
  have hd0 : (memory.construct sblksize sblknum mblksize mblknum lblksize lblknum h).1.block_size t
      = 0 ∨
      (memory.construct sblksize sblknum mblksize mblknum lblksize lblknum h).1.block_count t
      = 0 := by
    rw [hst, memory.reached, hc.1, hc.2] at hd
    exact hd
  have hinv : memory.disabled_empty t st.1 := by
    rw [hst]
    exact run_disabled_empty t calls _ (construct_disabled_empty _ _ _ _ _ _ h t hd0)
  refine ⟨hinv.2.1, hinv.2.2, ?_, by decide⟩
  intro size hsel
  rw [mem_malloc_eq, hsel]
  simp only [disabled_materialise st.1 st.2 t hd hinv.2.1, hinv.2.2]

/-- Claim C11, amended, at the input of its example: in `memory(64, 0, 1024, 4)`
the small tier has no arena and an empty free stack, and `mem_malloc(10)`, which
selects it, returns the heap allocation. -/
theorem disabled_tier_never_serves_witness :
    (memory.reached 64 0 1024 4 0 0 { answers := [4096, 8192], calls := [] }
        []).1.arena Tier.small = 0 ∧
    ((memory.reached 64 0 1024 4 0 0 { answers := [4096, 8192], calls := [] }
        []).1.free_stack Tier.small).items = [] ∧
    (memory.reached 64 0 1024 4 0 0 { answers := [4096, 8192], calls := [] } []).1.mem_malloc
        (memory.reached 64 0 1024 4 0 0 { answers := [4096, 8192], calls := [] } []).2 10
      = (((memory.reached 64 0 1024 4 0 0 { answers := [4096, 8192], calls := [] }
            []).2.sys_malloc 10).1,
         (memory.reached 64 0 1024 4 0 0 { answers := [4096, 8192], calls := [] } []).1,
         ((memory.reached 64 0 1024 4 0 0 { answers := [4096, 8192], calls := [] }
            []).2.sys_malloc 10).2) :=
  ⟨(disabled_tier_never_serves 64 0 1024 4 0 0 { answers := [4096, 8192], calls := [] } []
      Tier.small _ rfl (by decide)).1,
   (disabled_tier_never_serves 64 0 1024 4 0 0 { answers := [4096, 8192], calls := [] } []
      Tier.small _ rfl (by decide)).2.1,
   (disabled_tier_never_serves 64 0 1024 4 0 0 { answers := [4096, 8192], calls := [] } []
      Tier.small _ rfl (by decide)).2.2.1 10 (by decide)⟩
/-! ## When the arenas exist -/

theorem arenas_disjoint_symm (m : memory) (t t' : Tier) (h : m.arenas_disjoint t t') :
    m.arenas_disjoint t' t :=
  Or.symm h

theorem block_start_in_arena (m : memory) (t : Tier) (x : Ptr) (hx : m.is_block_start t x)
    (hen : m.enabled t) : m.in_arena t x := by
  obtain ⟨k, hk, rfl⟩ := hx
  exact ⟨Nat.le_add_right _ _, block_address_lt _ _ _ k hk hen.1⟩

theorem interval_disjoint (a p a' p' x : Nat) (hd : a + p ≤ a' ∨ a' + p' ≤ a)
    (h1 : a ≤ x ∧ x < a + p) (h2 : a' ≤ x ∧ x < a' + p') : False := by
  omega

theorem in_arena_not_both (m : memory) (t t' : Tier) (x : Ptr) (hd : m.arenas_disjoint t t')
    (h1 : m.in_arena t x) (h2 : m.in_arena t' x) : False :=
  interval_disjoint _ _ _ _ x hd h1 h2

theorem malloc_block_loop_nodup (bs bc : Nat) (p : Ptr) (stk : stack) (hs : stk.items = [])
    (hbs : bs ≠ 0) (hfit : p + bs * bc < SIZE_T_RANGE) :
    (malloc_block_loop bs bc p stk).items.Nodup := by
  unfold malloc_block_loop
  apply foldl_add_nodup _ _ stk (List.nodup_range bc)
  · intro i hi j hj hij
    have hi' : i < bc := List.mem_range.1 hi
    have hj' : j < bc := List.mem_range.1 hj
    simp only at hij
    rw [block_address_eq p bs bc (bc - 1 - i) (by omega) hfit,
      block_address_eq p bs bc (bc - 1 - j) (by omega) hfit] at hij
    have h1 : (bc - 1 - i) * bs = (bc - 1 - j) * bs := Nat.add_left_cancel hij
    have h2 : bc - 1 - i = bc - 1 - j :=
      Nat.eq_of_mul_eq_mul_right (Nat.pos_of_ne_zero hbs) h1
    omega
  · intro x hx
    rw [hs] at hx
    cases hx
  · rw [hs]
    exact List.nodup_nil

theorem malloc_block_loop_block_start (bs bc : Nat) (p : Ptr) (stk : stack)
    (hs : stk.items = []) (hfit : p + bs * bc < SIZE_T_RANGE) (x : Ptr)
    (hx : x ∈ (malloc_block_loop bs bc p stk).items) : ∃ k, k < bc ∧ x = p + k * bs := by
  rcases malloc_block_loop_mem bs bc p stk x hx with h1 | ⟨k, hk, hxk⟩
  · rw [hs] at h1
    cases h1
  · rw [block_address_eq p bs bc k hk hfit] at hxk
    exact ⟨k, hk, hxk⟩

/-- Materialising the arena of the selected tier keeps the invariant, when the
arena is fresh memory. -/
theorem materialise_pool_inv (m : memory) (h : Heap) (out : List Ptr) (t : Tier)
    (hinv : m.pool_inv out)
    (hf : m.arena t = 0 → (m.materialise h t).1.arena t ≠ 0 →
      (m.materialise h t).1.arena_fits t ∧
      (∀ q ∈ out, ¬ (m.materialise h t).1.in_arena t q) ∧
      (∀ t', t' ≠ t → (m.materialise h t).1.arena t' ≠ 0 →
        (m.materialise h t).1.arenas_disjoint t t')) :
    (m.materialise h t).1.pool_inv out := by
  rcases materialise_cases m h t with e | ⟨_, h0, hen, hne, _, hst⟩
  · rw [e]; exact hinv
  · obtain ⟨hfit, hout, hdis⟩ := hf h0 hne
    obtain ⟨i1, i2, i3, i4, i5, i6⟩ := hinv
    have hcfg := materialise_config m h t
    have hoth := materialise_free_stack_other m h t
    have hfit' : (m.materialise h t).1.arena t + m.block_size t * m.block_count t
        < SIZE_T_RANGE := by
      have := hfit
      unfold memory.arena_fits at this
      rw [(hcfg t).1, (hcfg t).2] at this
      exact this
    refine ⟨?_, ?_, ?_, ?_, i5, ?_⟩
    · intro t' h0'
      by_cases htt : t' = t
      · subst htt
        exact absurd h0' hne
      · rw [(hoth t' htt).1]
        rw [(hoth t' htt).2] at h0'
        exact i1 t' h0'
    · intro t' hne'
      by_cases htt : t' = t
      · subst htt
        refine ⟨hfit, ?_⟩
        unfold memory.enabled
        rw [(hcfg t').1, (hcfg t').2]
        exact hen
      · unfold memory.arena_fits memory.enabled
        rw [(hoth t' htt).2, (hcfg t').1, (hcfg t').2]
        rw [(hoth t' htt).2] at hne'
        exact i2 t' hne'
    · intro t'
      by_cases htt : t' = t
      · subst htt
        rw [hst]
        refine ⟨malloc_block_loop_nodup _ _ _ _ (i1 t' h0) hen.1 hfit', ?_⟩
        intro x hx
        unfold memory.is_block_start
        rw [(hcfg t').1, (hcfg t').2]
        exact malloc_block_loop_block_start _ _ _ _ (i1 t' h0) hfit' x hx
      · unfold memory.is_block_start
        rw [(hoth t' htt).1, (hoth t' htt).2, (hcfg t').1, (hcfg t').2]
        exact i3 t'
    · intro t' q hq hne' hin
      by_cases htt : t' = t
      · subst htt
        exact absurd hin (hout q hq)
      · unfold memory.is_block_start
        unfold memory.in_arena at hin
        rw [(hoth t' htt).2, (hcfg t').1, (hcfg t').2] at hin
        rw [(hoth t' htt).2] at hne'
        rw [(hoth t' htt).1, (hoth t' htt).2, (hcfg t').1, (hcfg t').2]
        exact i4 t' q hq hne' hin
    · intro t1 t2 h12 hn1 hn2
      by_cases h1 : t1 = t
      · subst h1
        exact hdis t2 (Ne.symm h12) hn2
      · by_cases h2 : t2 = t
        · subst h2
          exact arenas_disjoint_symm _ _ _ (hdis t1 h1 hn1)
        · unfold memory.arenas_disjoint
          rw [(hoth t1 h1).2, (hoth t2 h2).2, (hcfg t1).1, (hcfg t1).2, (hcfg t2).1,
            (hcfg t2).2]
          rw [(hoth t1 h1).2] at hn1
          rw [(hoth t2 h2).2] at hn2
          exact i6 t1 t2 h12 hn1 hn2
theorem is_block_start_set_free_stack (m : memory) (t t' : Tier) (s : stack) (x : Ptr) :
    (m.set_free_stack t s).is_block_start t' x ↔ m.is_block_start t' x := by
  unfold memory.is_block_start
  rw [set_free_stack_arena, (set_free_stack_config m t t' s).1,
    (set_free_stack_config m t t' s).2]

theorem in_arena_set_free_stack (m : memory) (t t' : Tier) (s : stack) (x : Ptr) :
    (m.set_free_stack t s).in_arena t' x ↔ m.in_arena t' x := by
  unfold memory.in_arena
  rw [set_free_stack_arena, (set_free_stack_config m t t' s).1,
    (set_free_stack_config m t t' s).2]

/-- Replacing the free stack of tier `t` keeps the parts of the invariant that
do not mention the free stacks. -/
theorem set_free_stack_pool_inv (m : memory) (out out' : List Ptr) (t : Tier) (s : stack)
    (hinv : m.pool_inv out)
    (h1 : m.arena t = 0 → s.items = [])
    (h3 : s.items.Nodup ∧ ∀ x ∈ s.items, m.is_block_start t x)
    (h4 : ∀ t', ∀ q ∈ out', m.arena t' ≠ 0 → m.in_arena t' q →
      m.is_block_start t' q ∧ q ∉ (if t' = t then s else m.free_stack t').items)
    (h5 : out'.Nodup ∧ 0 ∉ out') :
    (m.set_free_stack t s).pool_inv out' := by
  obtain ⟨i1, i2, i3, _, _, i6⟩ := hinv
  refine ⟨?_, ?_, ?_, ?_, h5, ?_⟩
  · intro t' h0
    rw [set_free_stack_arena] at h0
    rw [free_stack_set_free_stack]
    by_cases htt : t' = t
    · subst htt
      simp only [if_true]
      exact h1 h0
    · simp only [htt, if_false]
      exact i1 t' h0
  · intro t' hne
    rw [set_free_stack_arena] at hne
    unfold memory.arena_fits memory.enabled
    rw [set_free_stack_arena, (set_free_stack_config m t t' s).1,
      (set_free_stack_config m t t' s).2]
    exact i2 t' hne
  · intro t'
    simp only [is_block_start_set_free_stack]
    rw [free_stack_set_free_stack]
    by_cases htt : t' = t
    · subst htt
      simp only [if_true]
      exact h3
    · simp only [htt, if_false]
      exact i3 t'
  · intro t' q hq hne hin
    rw [set_free_stack_arena] at hne
    rw [in_arena_set_free_stack] at hin
    rw [is_block_start_set_free_stack, free_stack_set_free_stack]
    exact h4 t' q hq hne hin
  · intro t1 t2 h12 hn1 hn2
    rw [set_free_stack_arena] at hn1 hn2
    unfold memory.arenas_disjoint
    rw [set_free_stack_arena, set_free_stack_arena, (set_free_stack_config m t t1 s).1,
      (set_free_stack_config m t t1 s).2, (set_free_stack_config m t t2 s).1,
      (set_free_stack_config m t t2 s).2]
    exact i6 t1 t2 h12 hn1 hn2

/-- Popping a block and handing it to the client keeps the invariant. -/
theorem pop_pool_inv (m : memory) (out : List Ptr) (t : Tier) (p : Ptr) (rest : List Ptr)
    (hinv : m.pool_inv out) (hi : (m.free_stack t).items = p :: rest) :
    p ≠ 0 ∧
    (m.set_free_stack t
      { capacity := (m.free_stack t).capacity, items := rest }).pool_inv (p :: out) := by
  have hinv' := hinv
  obtain ⟨i1, i2, i3, i4, i5, i6⟩ := hinv
  have hne : m.arena t ≠ 0 := by
    intro h0
    rw [i1 t h0] at hi
    cases hi
  have hnd : (p :: rest).Nodup := hi ▸ (i3 t).1
  have hpb : m.is_block_start t p := (i3 t).2 p (by rw [hi]; exact List.mem_cons_self _ _)
  have hpa : m.in_arena t p := block_start_in_arena m t p hpb (i2 t hne).2
  have hp0 : p ≠ 0 := by
    intro hp
    have := hpa.1
    rw [hp] at this
    exact hne (Nat.le_zero.1 this)
  have hpo : p ∉ out := by
    intro hp
    have := (i4 t p hp hne hpa).2
    rw [hi] at this
    exact this (List.mem_cons_self _ _)
  refine ⟨hp0, set_free_stack_pool_inv m out (p :: out) t _ hinv' ?_ ?_ ?_ ?_⟩
  · intro h0
    exact absurd h0 hne
  · refine ⟨(List.nodup_cons.1 hnd).2, ?_⟩
    intro x hx
    exact (i3 t).2 x (by rw [hi]; exact List.mem_cons_of_mem _ hx)
  · intro t' q hq hne' hin
    rcases List.mem_cons.1 hq with e | hqo
    · subst e
      by_cases htt : t' = t
      · subst htt
        simp only [if_true]
        exact ⟨hpb, (List.nodup_cons.1 hnd).1⟩
      · exact absurd hpa (fun hpa' =>
          in_arena_not_both m t' t q (i6 t' t htt hne' hne) hin hpa')
    · have := i4 t' q hqo hne' hin
      refine ⟨this.1, ?_⟩
      by_cases htt : t' = t
      · subst htt
        simp only [if_true]
        intro hmem
        exact this.2 (by rw [hi]; exact List.mem_cons_of_mem _ hmem)
      · simp only [htt, if_false]
        exact this.2
  · refine ⟨List.nodup_cons.2 ⟨hpo, i5.1⟩, ?_⟩
    intro h0
    rcases List.mem_cons.1 h0 with e | h0'
    · exact hp0 e.symm
    · exact i5.2 h0'

/-- Handing a fresh heap pointer to the client keeps the invariant. -/
theorem heap_pool_inv (m : memory) (out : List Ptr) (r : Ptr) (hinv : m.pool_inv out)
    (hf : r = 0 ∨ (r ∉ out ∧ ∀ t', m.arena t' ≠ 0 → ¬ m.in_arena t' r)) :
    m.pool_inv (if r = 0 then out else r :: out) := by
  by_cases hr : r = 0
  · simp only [hr, if_true]
    exact hinv
  · simp only [hr, if_false]
    rcases hf with h0 | ⟨hro, hra⟩
    · exact absurd h0 hr
    · obtain ⟨i1, i2, i3, i4, i5, i6⟩ := hinv
      refine ⟨i1, i2, i3, ?_, ?_, i6⟩
      · intro t q hq hne hin
        rcases List.mem_cons.1 hq with e | hqo
        · subst e
          exact absurd hin (hra t hne)
        · exact i4 t q hqo hne hin
      · refine ⟨List.nodup_cons.2 ⟨hro, i5.1⟩, ?_⟩
        intro h0
        rcases List.mem_cons.1 h0 with e | h0'
        · exact hr e.symm
        · exact i5.2 h0'

/-- Releasing a held pointer keeps the invariant. -/
theorem free_pool_inv (m : memory) (h : Heap) (out : List Ptr) (p : Ptr)
    (hinv : m.pool_inv out) (hp : p = 0 ∨ p ∈ out) :
    (m.mem_free h p).1.pool_inv (out.erase p) := by
  have hinv' := hinv
  obtain ⟨i1, i2, i3, i4, i5, i6⟩ := hinv
  by_cases hp0 : p = 0
  · subst hp0
    have : out.erase 0 = out := List.erase_of_not_mem i5.2
    rw [this]
    simpa [memory.mem_free] using hinv'
  · have hpo : p ∈ out := by
      rcases hp with e | hm
      · exact absurd e hp0
      · exact hm
    have hsub : ∀ q, q ∈ out.erase p → q ∈ out ∧ q ≠ p := by
      intro q hq
      have := (List.Nodup.mem_erase_iff i5.1).1 hq
      exact ⟨this.2, this.1⟩
    have h5 : (out.erase p).Nodup ∧ 0 ∉ out.erase p :=
      ⟨List.Nodup.erase p i5.1, fun h0 => i5.2 (hsub 0 h0).1⟩
    rw [mem_free_eq _ _ _ hp0]
    cases ho : m.owner p with
    | none =>
      simp only
      exact ⟨i1, i2, i3, fun t q hq hne hin => i4 t q (hsub q hq).1 hne hin, h5, i6⟩
    | some t =>
      simp only
      have hr := owner_in_range m p t ho
      have hne : m.arena t ≠ 0 := hr.1
      have hpa : m.in_arena t p := in_range_in_arena m t p hr (i2 t hne).1
      have hpb := i4 t p hpo hne hpa
      apply set_free_stack_pool_inv m out (out.erase p) t _ hinv'
      · intro h0
        exact absurd h0 hne
      · rcases push_items (m.free_stack t) p with e | e
        · rw [e]
          exact i3 t
        · rw [e]
          refine ⟨List.nodup_cons.2 ⟨hpb.2, (i3 t).1⟩, ?_⟩
          intro x hx
          rcases List.mem_cons.1 hx with e' | hx'
          · rw [e']
            exact hpb.1
          · exact (i3 t).2 x hx'
      · intro t' q hq hne' hin
        have hq' := hsub q hq
        have := i4 t' q hq'.1 hne' hin
        refine ⟨this.1, ?_⟩
        by_cases htt : t' = t
        · subst htt
          simp only [if_true]
          rcases push_items (m.free_stack t') p with e | e
          · rw [e]
            exact this.2
          · rw [e]
            intro hmem
            rcases List.mem_cons.1 hmem with e' | hm'
            · exact hq'.2 e'
            · exact this.2 hm'
        · simp only [htt, if_false]
          exact this.2
      · exact h5
/-- An allocating call keeps the invariant, when the heap answers with fresh
memory. -/
theorem alloc_pool_inv (m : memory) (h : Heap) (out : List Ptr) (size : Nat)
    (hinv : m.pool_inv out) (hf : memory.fresh_step (m, h, out) size) :
    (m.mem_malloc h size).2.1.pool_inv
      (if (m.mem_malloc h size).1 = 0 then out else (m.mem_malloc h size).1 :: out) := by
  obtain ⟨hfa, hfr⟩ := hf
  unfold memory.fresh_result memory.heap_served at hfr
  unfold memory.fresh_arena at hfa
  simp only at hfa hfr
  have e := mem_malloc_eq m h size
  cases hsel : m.selected_tier size with
  | none =>
    rw [hsel] at e
    simp only at e
    rw [e] at hfr ⊢
    simp only at hfr ⊢
    exact heap_pool_inv m out _ hinv (hfr (fun t ht => by rw [hsel] at ht; cases ht))
  | some t =>
    have hinv1 := materialise_pool_inv m h out t hinv (hfa t hsel)
    rw [hsel] at e
    simp only at e
    cases hi : ((m.materialise h t).1.free_stack t).items with
    | nil =>
      rw [hi] at e
      simp only at e
      rw [e] at hfr ⊢
      simp only at hfr ⊢
      apply heap_pool_inv _ out _ hinv1
      apply hfr
      intro t' ht'
      rw [hsel] at ht'
      simp only [Option.some.injEq] at ht'
      subst ht'
      exact hi
    | cons p rest =>
      rw [hi] at e
      simp only at e
      rw [e]
      simp only
      obtain ⟨hp0, hpop⟩ := pop_pool_inv _ out t p rest hinv1 hi
      simp only [hp0, if_false]
      exact hpop

theorem tracked_call_pool_inv (s : Client) (c : MemCall) (hinv : s.1.pool_inv s.2.2)
    (hd : ∀ p, c = MemCall.mem_free p → p = 0 ∨ p ∈ s.2.2)
    (hf : ∀ size, c.alloc_size = some size → memory.fresh_step s size) :
    (memory.tracked_call s c).1.pool_inv (memory.tracked_call s c).2.2 := by
  obtain ⟨m, h, out⟩ := s
  cases c with
  | mem_malloc size =>
    exact alloc_pool_inv m h out size hinv (hf size rfl)
  | malloc size =>
    have := alloc_pool_inv m h out size hinv (hf size rfl)
    simp only [memory.tracked_call, memory.call]
    rw [malloc_state_eq, malloc_result_eq]
    exact this
  | mem_free p =>
    exact free_pool_inv m h out p hinv (hd p rfl)

theorem tracked_run_pool_inv (calls : List MemCall) (s : Client)
    (hinv : s.1.pool_inv s.2.2) (hd : memory.disciplined calls s)
    (hf : memory.heap_fresh calls s) :
    (memory.tracked_run calls s).1.pool_inv (memory.tracked_run calls s).2.2 := by
  induction calls generalizing s with
  | nil => simpa [memory.tracked_run] using hinv
  | cons c cs ih =>
    have := ih (memory.tracked_call s c) (tracked_call_pool_inv s c hinv hd.1 hf.1) hd.2 hf.2
    simpa [memory.tracked_run] using this

theorem construct_pool_inv (a b c d e f : Nat) (h : Heap)
    (hfit : (memory.construct a b c d e f h).1.arena Tier.small ≠ 0 →
      (memory.construct a b c d e f h).1.arena_fits Tier.small) :
    (memory.construct a b c d e f h).1.pool_inv [] := by
  obtain ⟨_, hm, hl, him, hil, hs⟩ := construct_state a b c d e f h
  refine ⟨?_, ?_, ?_, ?_, ⟨List.nodup_nil, by simp⟩, ?_⟩
  · intro t h0
    cases t with
    | medium => exact him
    | large => exact hil
    | small =>
      rcases hs with ⟨_, hi⟩ | ⟨_, hne, _, _⟩
      · exact hi
      · exact absurd h0 hne
  · intro t hne
    cases t with
    | medium => exact absurd hm hne
    | large => exact absurd hl hne
    | small =>
      rcases hs with ⟨h0, _⟩ | ⟨hen, _, _, _⟩
      · exact absurd h0 hne
      · exact ⟨hfit hne, hen⟩
  · intro t
    cases t with
    | medium => rw [him]; exact ⟨List.nodup_nil, fun x hx => by cases hx⟩
    | large => rw [hil]; exact ⟨List.nodup_nil, fun x hx => by cases hx⟩
    | small =>
      rcases hs with ⟨_, hi⟩ | ⟨hen, hne, _, hst⟩
      · rw [hi]; exact ⟨List.nodup_nil, fun x hx => by cases hx⟩
      · have hfit' := hfit hne
        rw [hst]
        exact ⟨malloc_block_loop_nodup _ _ _ _ rfl hen.1 hfit',
          fun x hx => malloc_block_loop_block_start _ _ _ _ rfl hfit' x hx⟩
  · intro t q hq
    cases hq
  · intro t1 t2 h12 hn1 hn2
    cases t1 <;> cases t2 <;> first
      | exact absurd rfl h12
      | exact absurd hm hn1
      | exact absurd hl hn1
      | exact absurd hm hn2

theorem block_starts_length_le (a bs bc : Nat) (l : List Nat)
    (hnd : l.Nodup) (hl : ∀ x ∈ l, ∃ k, k < bc ∧ x = a + k * bs) : l.length ≤ bc := by
  by_cases hne : l = []
  · rw [hne]
    exact Nat.zero_le _
  · have hsub : l ⊆ (List.range bc).map (fun k => a + k * bs) := by
      intro x hx
      obtain ⟨k, hk, rfl⟩ := hl x hx
      exact List.mem_map.2 ⟨k, List.mem_range.2 hk, rfl⟩
    have := (List.subperm_of_subset hnd hsub).length_le
    simpa using this

theorem blocks_apart (a bs bc k1 k2 : Nat) (h12 : a + k1 * bs ≠ a + k2 * bs) (hk2 : k2 < bc) :
    a + k1 * bs + bs ≤ a + k2 * bs ∨ a + k2 * bs + bs ≤ a + k1 * bs := by
  rcases Nat.lt_trichotomy k1 k2 with h | h | h
  · left
    have : (k1 + 1) * bs ≤ k2 * bs := Nat.mul_le_mul_right bs h
    rw [Nat.succ_mul] at this
    omega
  · subst h
    exact absurd rfl h12
  · right
    have : (k2 + 1) * bs ≤ k1 * bs := Nat.mul_le_mul_right bs h
    rw [Nat.succ_mul] at this
    omega

theorem block_within (a bs bc k : Nat) (hk : k < bc) : a + k * bs + bs ≤ a + bs * bc := by
  have : (k + 1) * bs ≤ bc * bs := Nat.mul_le_mul_right bs hk
  rw [Nat.succ_mul] at this
  rw [Nat.mul_comm bs bc]
  omega

/-- Two distinct held pointers that lie in arenas address blocks that do not
overlap. -/
theorem pool_inv_apart (m : memory) (out : List Ptr) (hinv : m.pool_inv out)
    (q1 q2 : Ptr) (h1 : q1 ∈ out) (h2 : q2 ∈ out) (hne : q1 ≠ q2) (t1 t2 : Tier)
    (hn1 : m.arena t1 ≠ 0) (hn2 : m.arena t2 ≠ 0) (ha1 : m.in_arena t1 q1)
    (ha2 : m.in_arena t2 q2) :
    q1 + m.block_size t1 ≤ q2 ∨ q2 + m.block_size t2 ≤ q1 := by
  obtain ⟨_, _, _, i4, _, i6⟩ := hinv
  obtain ⟨k1, hk1, e1⟩ := (i4 t1 q1 h1 hn1 ha1).1
  obtain ⟨k2, hk2, e2⟩ := (i4 t2 q2 h2 hn2 ha2).1
  by_cases htt : t1 = t2
  · subst htt
    rw [e1, e2] at hne ⊢
    exact blocks_apart _ _ _ k1 k2 hne hk2
  · have hw1 := block_within (m.arena t1) (m.block_size t1) (m.block_count t1) k1 hk1
    have hw2 := block_within (m.arena t2) (m.block_size t2) (m.block_count t2) k2 hk2
    have hd := i6 t1 t2 htt hn1 hn2
    unfold memory.arenas_disjoint at hd
    rw [e1, e2]
    rcases hd with hd | hd
    · left
      exact le_trans hw1 (le_trans hd (Nat.le_add_right _ _))
    · right
      exact le_trans hw2 (le_trans hd (Nat.le_add_right _ _))

theorem disciplined_initial (calls more : List MemCall) (s : Client)
    (hd : memory.disciplined (calls ++ more) s) : memory.disciplined calls s := by
  induction calls generalizing s with
  | nil => trivial
  | cons c cs ih => exact ⟨hd.1, ih _ hd.2⟩

theorem heap_fresh_initial (calls more : List MemCall) (s : Client)
    (hf : memory.heap_fresh (calls ++ more) s) : memory.heap_fresh calls s := by
  induction calls generalizing s with
  | nil => trivial
  | cons c cs ih => exact ⟨hf.1, ih _ hf.2⟩

/-- Claim C20, amended: take any sequence of calls in which `mem_free` is applied
only to pointers returned by an earlier allocation and not released since, on a
heap that answers with fresh memory: every arena range
`[base, base + block_size * block_count)` does not overflow `size_t`, overlaps
no other arena and contains no held pointer, and a heap block is not held
already and lies in no arena. Then at every point of the sequence each
tier's free stack is a duplicate-free list of block starts
`base + k * block_size` with `k < block_count`, so its depth is at most
`block_count`; the pointers held by the client are pairwise distinct; a held
pointer that lies in an arena is a block start that is not on the free stack;
and the blocks of two distinct held pool pointers do not overlap. -/
theorem pool_never_shares_a_block
    (sblksize sblknum mblksize mblknum lblksize lblknum : Nat) (h : Heap)
    (calls more : List MemCall) (m0 : memory × Heap) (st : Client)
    (hm0 : m0 = memory.construct sblksize sblknum mblksize mblknum lblksize lblknum h)
    (hst : st = memory.tracked_run calls (m0.1, m0.2, []))
    (hc : m0.1.arena Tier.small ≠ 0 →
      m0.1.arena Tier.small + m0.1.block_size Tier.small * m0.1.block_count Tier.small
        < SIZE_T_RANGE)
    (hd : memory.disciplined (calls ++ more) (m0.1, m0.2, []))
    (hf : memory.heap_fresh (calls ++ more) (m0.1, m0.2, [])) :
    (∀ t, (st.1.free_stack t).items.Nodup ∧
      (∀ x ∈ (st.1.free_stack t).items,
        ∃ k, k < st.1.block_count t ∧ x = st.1.arena t + k * st.1.block_size t) ∧
      (st.1.free_stack t).items.length ≤ st.1.block_count t) ∧
    st.2.2.Nodup ∧
    (∀ t, ∀ q ∈ st.2.2, st.1.arena t ≠ 0 →
      st.1.arena t ≤ q ∧ q < st.1.arena t + st.1.block_size t * st.1.block_count t →
      (∃ k, k < st.1.block_count t ∧ q = st.1.arena t + k * st.1.block_size t) ∧
      q ∉ (st.1.free_stack t).items) ∧
    (∀ q1 ∈ st.2.2, ∀ q2 ∈ st.2.2, q1 ≠ q2 → ∀ t1 t2,
      st.1.arena t1 ≠ 0 → st.1.arena t2 ≠ 0 →
      st.1.arena t1 ≤ q1 ∧ q1 < st.1.arena t1 + st.1.block_size t1 * st.1.block_count t1 →
      st.1.arena t2 ≤ q2 ∧ q2 < st.1.arena t2 + st.1.block_size t2 * st.1.block_count t2 →
      q1 + st.1.block_size t1 ≤ q2 ∨ q2 + st.1.block_size t2 ≤ q1) := by
  have h0 : m0.1.pool_inv [] := by
    rw [hm0]
    apply construct_pool_inv
    rw [← hm0]
    exact hc
  have hinv : st.1.pool_inv st.2.2 := by
    rw [hst]
    exact tracked_run_pool_inv calls (m0.1, m0.2, []) h0 (disciplined_initial calls more _ hd)
      (heap_fresh_initial calls more _ hf)
  have hinv' := hinv
  obtain ⟨_, _, i3, i4, i5, _⟩ := hinv
  refine ⟨?_, i5.1, i4, ?_⟩
  · intro t
    exact ⟨(i3 t).1, (i3 t).2, block_starts_length_le _ _ _ _ (i3 t).1 (i3 t).2⟩
  · intro q1 h1 q2 h2 hne t1 t2 hn1 hn2 ha1 ha2
    exact pool_inv_apart st.1 st.2.2 hinv' q1 q2 h1 h2 hne t1 t2 hn1 hn2 ha1 ha2

/-- Claim C20, amended, at a concrete input: the example allocator `memory(64, 2, 1024, 2)`,
two allocations from the small tier, one from the medium tier, a release and a
further allocation. The client ends up holding three distinct blocks, and the
small free stack is empty. -/
theorem pool_never_shares_a_block_witness :
    (memory.tracked_run
        [MemCall.mem_malloc 10, MemCall.mem_malloc 20, MemCall.malloc 100,
          MemCall.mem_free 65536, MemCall.mem_malloc 30]
        (example_memory.1, example_memory.2, [])).2.2 = [65536, 131072, 65600] ∧
    (memory.tracked_run
        [MemCall.mem_malloc 10, MemCall.mem_malloc 20, MemCall.malloc 100,
          MemCall.mem_free 65536, MemCall.mem_malloc 30]
        (example_memory.1, example_memory.2, [])).2.2.Nodup :=
  ⟨by decide,
   (pool_never_shares_a_block 64 2 1024 2 0 0 { answers := [65536, 131072], calls := [] }
      [MemCall.mem_malloc 10, MemCall.mem_malloc 20, MemCall.malloc 100,
        MemCall.mem_free 65536, MemCall.mem_malloc 30] [] example_memory _ rfl rfl
      (by decide) (by decide) (by decide)).2.1⟩

/-! ## `cHttpsWorkThread`: dispatch -/

theorem OnAppData_unit_close (env : Env) (ucid : Nat) (pkg : cHttpPacket) (bret : Bool) :
    (OnAppData_unit env ucid pkg bret).1 = none ↔
      (pkg._nprotocol = Protocol.PROTOCOL_WS ∧ pkg._opcode = WS_OP_CLOSE) := by
  unfold OnAppData_unit
  cases hp : pkg._nprotocol <;> simp only
  · simp
  · by_cases h1 : pkg._opcode ≤ WS_OP_BIN
    · simp only [h1, if_true]
      have : pkg._opcode ≠ WS_OP_CLOSE := by
        intro e
        rw [e] at h1
        exact absurd h1 (by decide)
      simp [this]
    · simp only [h1, if_false]
      by_cases h2 : pkg._opcode = WS_OP_CLOSE
      · simp [h2]
      · simp only [h2, if_false]
        split_ifs <;> simp
  · simp

theorem OnAppData_loop_append (env : Env) (ucid : Nat) (pre rest : List ParseResult)
    (bret : Bool) (sent : List Event)
    (hpre : ∀ r ∈ pre, r.nr = ParseStatus.he_ok ∧
      (OnAppData_unit env ucid r.pkg true).1 ≠ none) :
    OnAppData_loop env ucid (pre ++ rest) bret sent
      = OnAppData_loop env ucid rest (OnAppData_loop env ucid pre bret sent).1
          (OnAppData_loop env ucid pre bret sent).2 := by
  induction pre generalizing bret sent with
  | nil => rfl
  | cons r rs ih =>
    have hr := hpre r (List.mem_cons_self _ _)
    have hrs : ∀ r' ∈ rs, r'.nr = ParseStatus.he_ok ∧
        (OnAppData_unit env ucid r'.pkg true).1 ≠ none :=
      fun r' hr' => hpre r' (List.mem_cons_of_mem _ hr')
    simp only [List.cons_append, OnAppData_loop, hr.1]
    cases hu : (OnAppData_unit env ucid r.pkg bret).1 with
    | none =>
      exact absurd ((OnAppData_unit_close env ucid r.pkg true).2
        ((OnAppData_unit_close env ucid r.pkg bret).1 hu)) hr.2
    | some b =>
      simp only
      exact ih b _ hrs

theorem OnAppData_unit_close_events (env : Env) (ucid : Nat) (pkg : cHttpPacket) (bret : Bool)
    (hws : pkg._nprotocol = Protocol.PROTOCOL_WS) (hop : pkg._opcode = WS_OP_CLOSE) :
    OnAppData_unit env ucid pkg bret = (none, []) := by
  unfold OnAppData_unit
  rw [hws]
  simp only [hop]
  rfl

/-- What `OnAppData` does when the parser, after yielding the units `pre`,
yields a close frame: the loop ends at once. -/
theorem OnAppData_loop_close (env : Env) (ucid : Nat) (pre : List ParseResult)
    (c : ParseResult) (rest : List ParseResult) (bret : Bool) (sent : List Event)
    (hpre : ∀ r ∈ pre, r.nr = ParseStatus.he_ok)
    (hc : c.nr = ParseStatus.he_ok ∧ c.pkg._nprotocol = Protocol.PROTOCOL_WS ∧
      c.pkg._opcode = WS_OP_CLOSE) :
    OnAppData_loop env ucid (pre ++ c :: rest) bret sent
      = (false, (OnAppData_loop env ucid pre bret sent).2) := by
  induction pre generalizing bret sent with
  | nil =>
    simp only [List.nil_append, OnAppData_loop, hc.1,
      OnAppData_unit_close_events env ucid c.pkg bret hc.2.1 hc.2.2, List.append_nil]
  | cons r rs ih =>
    have hr := hpre r (List.mem_cons_self _ _)
    have hrs : ∀ r' ∈ rs, r'.nr = ParseStatus.he_ok :=
      fun r' hr' => hpre r' (List.mem_cons_of_mem _ hr')
    simp only [List.cons_append, OnAppData_loop, hr]
    cases hu : (OnAppData_unit env ucid r.pkg bret).1 with
    | none => rfl
    | some b =>
      simp only
      exact ih b _ hrs

/-- Claim C14: for every parser behaviour on a chunk, as soon as the parser
yields a WebSocket unit whose opcode is close (8), after any units `pre` it has
yielded before, `OnAppData` returns false; the events are exactly those of the
earlier units, so no frame is sent for the close unit; and the outcome does not
depend on what the parser would report next (`rest`), on what the earlier units
returned, or on the keep-alive flag of the parsed packet. -/
theorem OnAppData_close_returns_false (env : Env) (ucid : Nat) (pre : List ParseResult)
    (c : ParseResult) (rest : List ParseResult)
    (hpre : ∀ r ∈ pre, r.nr = ParseStatus.he_ok)
    (hc : c.nr = ParseStatus.he_ok ∧ c.pkg._nprotocol = Protocol.PROTOCOL_WS ∧
      c.pkg._opcode = WS_OP_CLOSE) :
    OnAppData env ucid (pre ++ c :: rest) = (false, (OnAppData env ucid pre).2) :=
  OnAppData_loop_close env ucid pre c rest true [] hpre hc

/-- Claim C16: if the parser reports `he_failed`, on the initial feed
(`pre = []`) or on a later request for the next unit, after yielding the units
`pre` none of which is a close frame, then `OnAppData` returns false and its
events are those of the units already dispatched followed by one send of the
fixed 400 Bad Request response, whatever the handlers of the earlier units
returned and whatever the parser would report next. -/
theorem OnAppData_failed_sends_400 (env : Env) (ucid : Nat) (pre : List ParseResult)
    (f : ParseResult) (rest : List ParseResult)
    (hpre : ∀ r ∈ pre, r.nr = ParseStatus.he_ok ∧
      ¬ (r.pkg._nprotocol = Protocol.PROTOCOL_WS ∧ r.pkg._opcode = WS_OP_CLOSE))
    (hf : f.nr = ParseStatus.he_failed) :
    OnAppData env ucid (pre ++ f :: rest)
      = (false, (OnAppData env ucid pre).2 ++ [Event.send ucid bad_request_response]) := by
  unfold OnAppData
  rw [OnAppData_loop_append env ucid pre (f :: rest) true []
    (fun r hr => ⟨(hpre r hr).1, fun hn =>
      (hpre r hr).2 ((OnAppData_unit_close env ucid r.pkg true).1 hn)⟩)]
  simp only [OnAppData_loop, hf, DoBadRequest]
/-- Claim C14 at a concrete input: a chunk holding a text frame, a close frame
and a ping frame. The text frame is echoed, then `OnAppData` returns false; the
ping frame is never asked for. -/
theorem OnAppData_close_returns_false_witness :
    OnAppData example_env 7
        ([{ nr := ParseStatus.he_ok, pkg := example_frame 1 (cstr "hi") }]
          ++ { nr := ParseStatus.he_ok, pkg := example_frame 8 [] }
            :: [{ nr := ParseStatus.he_ok, pkg := example_frame 9 (cstr "abc") }])
      = (false, (OnAppData example_env 7
          [{ nr := ParseStatus.he_ok, pkg := example_frame 1 (cstr "hi") }]).2) ∧
    (OnAppData example_env 7
        [{ nr := ParseStatus.he_ok, pkg := example_frame 1 (cstr "hi") }]).2
      = [Event.send 7 [0x81, 2, 104, 105]] :=
  ⟨OnAppData_close_returns_false example_env 7
      [{ nr := ParseStatus.he_ok, pkg := example_frame 1 (cstr "hi") }]
      { nr := ParseStatus.he_ok, pkg := example_frame 8 [] }
      [{ nr := ParseStatus.he_ok, pkg := example_frame 9 (cstr "abc") }]
      (by decide) (by decide),
   by decide⟩

/-- Claim C16 at a concrete input: a chunk holding a ping frame followed by
malformed input. The pong is sent, then the 400 response, and `OnAppData`
returns false. -/
theorem OnAppData_failed_sends_400_witness :
    OnAppData example_env 7
        ([{ nr := ParseStatus.he_ok, pkg := example_frame 9 (cstr "abc") }]
          ++ { nr := ParseStatus.he_failed, pkg := example_frame 0 [] } :: [])
      = (false, (OnAppData example_env 7
          [{ nr := ParseStatus.he_ok, pkg := example_frame 9 (cstr "abc") }]).2
            ++ [Event.send 7 bad_request_response]) ∧
    (OnAppData example_env 7
        [{ nr := ParseStatus.he_ok, pkg := example_frame 9 (cstr "abc") }]).2
      = [Event.send 7 [0x8A, 3, 97, 98, 99]] :=
  ⟨OnAppData_failed_sends_400 example_env 7
      [{ nr := ParseStatus.he_ok, pkg := example_frame 9 (cstr "abc") }]
      { nr := ParseStatus.he_failed, pkg := example_frame 0 [] } []
      (by decide) (by decide),
   by decide⟩

/-- Claim C15: for every WebSocket unit with opcode ping (9) and payload `p`,
the dispatch performs exactly one send, whose bytes are those of
`MakeWsSend(p, WS_OP_PONG)`, and sets the result to true (keep open); a chunk
that holds just this unit makes `OnAppData` return true with that one send. For
a payload shorter than 126 bytes the bytes are `0x8A`, the length, and the
payload unchanged. -/
theorem ping_answered_by_one_pong (env : Env) (ucid : Nat) (pkg : cHttpPacket) (bret : Bool)
    (hws : pkg._nprotocol = Protocol.PROTOCOL_WS) (hop : pkg._opcode = WS_OP_PING) :
    OnAppData_unit env ucid pkg bret
      = (some true, [Event.send ucid (MakeWsSend pkg._body 0xA).2]) ∧
    OnAppData env ucid [{ nr := ParseStatus.he_ok, pkg := pkg }]
      = (true, [Event.send ucid (MakeWsSend pkg._body 0xA).2]) ∧
    (pkg._body.length < 126 →
      (MakeWsSend pkg._body 0xA).2 = [0x8A, pkg._body.length] ++ pkg._body) := by
  have hu : ∀ b, OnAppData_unit env ucid pkg b
      = (some true, [Event.send ucid (MakeWsSend pkg._body 0xA).2]) := by
    intro b
    unfold OnAppData_unit
    rw [hws]
    simp only [hop]
    rfl
  refine ⟨hu bret, ?_, ?_⟩
  · simp only [OnAppData, OnAppData_loop, hu true, List.nil_append]
  · intro hlt
    rw [MakeWsSend_short pkg._body 0xA hlt]
    rfl

/-- Claim C15 at the input of its example: a ping with payload `"abc"` is
answered by the one frame `0x8A 0x03 'a' 'b' 'c'`. -/
theorem ping_answered_by_one_pong_witness :
    OnAppData_unit example_env 7 (example_frame 9 (cstr "abc")) false
      = (some true, [Event.send 7 (MakeWsSend (cstr "abc") 0xA).2]) ∧
    (MakeWsSend (cstr "abc") 0xA).2 = [0x8A, 0x03, 97, 98, 99] :=
  ⟨(ping_answered_by_one_pong example_env 7 (example_frame 9 (cstr "abc")) false rfl rfl).1,
   ((ping_answered_by_one_pong example_env 7 (example_frame 9 (cstr "abc")) false rfl
      rfl).2.2 (by decide)).trans (by decide)⟩

theorem atoi_digits_no_digit (cs : List Nat) (h : starts_with_digit cs = false) :
    atoi_digits cs 0 = 0 := by
  cases cs with
  | nil => rfl
  | cons d ds =>
    have hd : ¬ (48 ≤ d ∧ d ≤ 57) := by
      simpa [starts_with_digit] using h
    simp only [atoi_digits, hd, if_false]

/-- What `strtol` returns is the integer value of the field, replaced by
`LONG_MAX` or `LONG_MIN` when it lies outside the range of `long`. -/
theorem strtol_eq (s : List Nat) :
    strtol s = max (min (decimal_value s) 9223372036854775807) (-9223372036854775808) := by
  induction s with
  | nil => decide
  | cons c cs ih =>
    unfold strtol decimal_value
    split_ifs
    · exact ih
    · omega
    · omega
    · omega

/-- Within the range of `int`, `atoi` returns the integer value of the field. -/
theorem atoi_in_range (s : List Nat)
    (h : -2147483648 ≤ decimal_value s ∧ decimal_value s < 2147483648) :
    atoi s = decimal_value s := by
  unfold atoi int_cast
  rw [strtol_eq]
  omega

theorem not_numeric_decimal_value (s : List Nat) (h : not_numeric s = true) :
    decimal_value s = 0 := by
  induction s with
  | nil => rfl
  | cons c cs ih =>
    unfold not_numeric at h
    unfold decimal_value
    by_cases h1 : c = 32 ∨ (9 ≤ c ∧ c ≤ 13)
    · simp only [h1, if_true] at h ⊢
      exact ih h
    · simp only [h1, if_false] at h ⊢
      by_cases h2 : c = 45
      · have h2' : c = 45 ∨ c = 43 := Or.inl h2
        simp only [h2', if_true, Bool.not_eq_true'] at h
        simp only [h2, if_true, atoi_digits_no_digit cs h]
        rfl
      · by_cases h3 : c = 43
        · have h3' : c = 45 ∨ c = 43 := Or.inr h3
          simp only [h3', if_true, Bool.not_eq_true'] at h
          simp only [h2, h3, if_true, if_false, atoi_digits_no_digit cs h]
          rfl
        · have h23 : ¬ (c = 45 ∨ c = 43) := by
            intro hh
            rcases hh with hh | hh
            · exact h2 hh
            · exact h3 hh
          simp only [h23, if_false, Bool.not_eq_true', decide_eq_false_iff_not] at h
          simp only [h2, h3, if_false, atoi_digits, h]
          rfl

/-- For a field that is not numeric `atoi` returns 0. -/
theorem not_numeric_atoi (s : List Nat) (h : not_numeric s = true) : atoi s = 0 := by
  rw [atoi_in_range s (by rw [not_numeric_decimal_value s h]; decide),
    not_numeric_decimal_value s h]

/-- Claim C17, as stated, fails for a version field whose integer value lies
outside the range of `int`, which is what `atoi` returns. For the field
`4294967297`, whose integer value is at least 13, `atoi` returns 1: a GET
carrying a WebSocket key gets the 400 response and the upgrade is not invoked.
For the field `-2147483649`, whose integer value is below 13, `atoi` returns
2147483647 and the upgrade is invoked. -/
theorem version_outside_int_range_is_misread :
    decimal_value (cstr "4294967297") = 4294967297 ∧
    atoi (cstr "4294967297") = 1 ∧
    DoHttpRequest example_env 7
        (example_request (cstr "GET") (cstr "4294967297") (some (cstr "key")) false)
      = (false, [Event.send 7 bad_request_response]) ∧
    ¬ (Event.upgrade 7 ∈ (DoHttpRequest example_env 7
          (example_request (cstr "GET") (cstr "4294967297") (some (cstr "key")) false)).2 ↔
        13 ≤ decimal_value (cstr "4294967297")) ∧
    decimal_value (cstr "-2147483649") = -2147483649 ∧
    atoi (cstr "-2147483649") = 2147483647 ∧
    ¬ (Event.upgrade 7 ∈ (DoHttpRequest example_env 7
          (example_request (cstr "GET") (cstr "-2147483649") (some (cstr "key")) false)).2 ↔
        13 ≤ decimal_value (cstr "-2147483649")) := by
  decide

/-- Claim C17, amended: for every GET request carrying a WebSocket key, with `v`
the value `atoi` returns for its `Sec-WebSocket-Version` field, which is the
integer value of the field whenever that lies in the range of `int`, and 0 when
the field is absent or not numeric: if `v < 13` the engine sends exactly the
fixed 400 response, does not invoke the upgrade and returns the keep-alive flag
of the request; if `v >= 13` it invokes the upgrade once, then sends one
`101 Switching Protocols` response whose last header is `Sec-WebSocket-Accept`,
and returns true. The upgrade is invoked if and only if `v >= 13`; for a field
whose integer value lies in the range of `int`, if and only if that value is at
least 13. -/
theorem upgrade_iff_version_at_least_13 (env : Env) (ucid : Nat) (pkg : cHttpPacket)
    (skey : List Nat) (hget : stricmp_eq (cstr "GET") pkg._method = true)
    (hkey : pkg.GetWebSocketKey = some skey) :
    (atoi pkg.sVersion < 13 →
      DoHttpRequest env ucid pkg
        = (pkg.HasKeepAlive, [Event.send ucid bad_request_response])) ∧
    (13 ≤ atoi pkg.sVersion →
      DoHttpRequest env ucid pkg
        = (true, [Event.upgrade ucid,
            Event.send ucid
              (cstr "http/1.1 101 Switching Protocols\r\n"
                ++ cstr "Upgrade:websocket\r\nConnection:Upgrade\r\n"
                ++ (if pkg.sProtocol ≠ [] then
                      cstr "Sec-WebSocket-Protocol:" ++ pkg.sProtocol ++ cstr "\r\n"
                    else [])
                ++ (cstr "Sec-WebSocket-Accept:"
                  ++ env.encode_base64
                      (env.encode_sha1 (skey ++ cstr "258EAFA5-E914-47DA-95CA-C5AB0DC85B11"))
                  ++ cstr "\r\n\r\n"))])) ∧
    (Event.upgrade ucid ∈ (DoHttpRequest env ucid pkg).2 ↔ 13 ≤ atoi pkg.sVersion) ∧
    (-2147483648 ≤ decimal_value pkg.sVersion ∧ decimal_value pkg.sVersion < 2147483648 →
      atoi pkg.sVersion = decimal_value pkg.sVersion ∧
      (Event.upgrade ucid ∈ (DoHttpRequest env ucid pkg).2 ↔
        13 ≤ decimal_value pkg.sVersion)) ∧
    (not_numeric pkg.sVersion = true →
      atoi pkg.sVersion = 0 ∧
      DoHttpRequest env ucid pkg
        = (pkg.HasKeepAlive, [Event.send ucid bad_request_response])) ∧
    atoi [] = 0 := by
  have e : DoHttpRequest env ucid pkg = DoUpgradeWebSocket env ucid pkg skey := by
    simp only [DoHttpRequest, hget, if_true, hkey]
  have h400 : atoi pkg.sVersion < 13 →
      DoHttpRequest env ucid pkg
        = (pkg.HasKeepAlive, [Event.send ucid bad_request_response]) := by
    intro hv
    rw [e]
    simp only [DoUpgradeWebSocket, hv, if_true, DoBadRequest]
  have hiff : Event.upgrade ucid ∈ (DoHttpRequest env ucid pkg).2 ↔
      13 ≤ atoi pkg.sVersion := by
    rw [e]
    by_cases hv : atoi pkg.sVersion < 13
    · simp only [DoUpgradeWebSocket, hv, if_true, DoBadRequest]
      constructor
      · intro hm
        simp at hm
      · intro h13
        exact absurd hv (not_lt.2 h13)
    · simp only [DoUpgradeWebSocket, hv, if_false]
      constructor
      · intro _
        exact not_lt.1 hv
      · intro _
        exact List.mem_cons_self _ _
  refine ⟨h400, ?_, hiff, ?_, ?_, by decide⟩
  · intro hv
    have hv' : ¬ atoi pkg.sVersion < 13 := not_lt.2 hv
    rw [e]
    simp only [DoUpgradeWebSocket, hv', if_false]
    by_cases hp : pkg.sProtocol = []
    · simp [hp]
    · simp [hp]
  · intro hr
    have ha := atoi_in_range pkg.sVersion hr
    refine ⟨ha, ?_⟩
    rw [← ha]
    exact hiff
  · intro hn
    have ha := not_numeric_atoi pkg.sVersion hn
    refine ⟨ha, h400 ?_⟩
    rw [ha]
    decide

/-- Claim C17, amended, at concrete inputs: a GET with key and version field
`13` is upgraded; with version field `8` and keep-alive it gets the 400 response
and the keep-alive flag is returned; with the field `abc`, which is not numeric,
`atoi` returns 0. -/
theorem upgrade_iff_version_at_least_13_witness :
    (DoHttpRequest example_env 7
        (example_request (cstr "GET") (cstr "13") (some (cstr "key")) false)).1 = true ∧
    Event.upgrade 7 ∈ (DoHttpRequest example_env 7
        (example_request (cstr "GET") (cstr "13") (some (cstr "key")) false)).2 ∧
    DoHttpRequest example_env 7
        (example_request (cstr "get") (cstr "8") (some (cstr "key")) true)
      = (true, [Event.send 7 bad_request_response]) ∧
    atoi (example_request (cstr "GET") (cstr "13") (some (cstr "key")) false).sVersion
      = decimal_value
          (example_request (cstr "GET") (cstr "13") (some (cstr "key")) false).sVersion ∧
    atoi (example_request (cstr "GET") (cstr "abc") (some (cstr "key")) false).sVersion = 0 :=
  ⟨by decide,
   (upgrade_iff_version_at_least_13 example_env 7
      (example_request (cstr "GET") (cstr "13") (some (cstr "key")) false) (cstr "key")
      (by decide) rfl).2.2.1.2 (by decide),
   (upgrade_iff_version_at_least_13 example_env 7
      (example_request (cstr "get") (cstr "8") (some (cstr "key")) true) (cstr "key")
      (by decide) rfl).1 (by decide),
   ((upgrade_iff_version_at_least_13 example_env 7
      (example_request (cstr "GET") (cstr "13") (some (cstr "key")) false) (cstr "key")
      (by decide) rfl).2.2.2.1 (by decide)).1,
   ((upgrade_iff_version_at_least_13 example_env 7
      (example_request (cstr "GET") (cstr "abc") (some (cstr "key")) false) (cstr "key")
      (by decide) rfl).2.2.2.2.1 (by decide)).1⟩

/-- Claim C13, as stated, fails when `block_size * block_count` overflows
`size_t`: `memory(2^63, 2)` asks the heap for `2^63 * 2 mod 2^64 = 0` bytes and
obtains the arena base 4096; the small free stack then holds 4096 and
`4096 + 2^63`. `mem_malloc(1)` returns 4096, but `mem_free(4096)` computes the
end of the small range as `4096 + 0`, does not find the pointer in it and hands
it to `::free`: the allocator is not restored, and the next `mem_malloc(1)`
returns `4096 + 2^63`, not 4096 again. -/
theorem small_release_lost_when_arena_size_overflows :
    ((memory.reached 9223372036854775808 2 0 0 0 0 { answers := [4096], calls := [] }
        []).1.free_stack Tier.small).items = [4096, 9223372036854779904] ∧
    1 ≤ (memory.reached 9223372036854775808 2 0 0 0 0 { answers := [4096], calls := [] }
        []).1.block_size Tier.small ∧
    ((memory.reached 9223372036854775808 2 0 0 0 0 { answers := [4096], calls := [] }
        []).1.mem_malloc
      (memory.reached 9223372036854775808 2 0 0 0 0 { answers := [4096], calls := [] }
        []).2 1).1 = 4096 ∧
    (memory.run [MemCall.mem_malloc 1, MemCall.mem_free 4096]
        (memory.reached 9223372036854775808 2 0 0 0 0 { answers := [4096], calls := [] } []))
      ≠ memory.reached 9223372036854775808 2 0 0 0 0 { answers := [4096], calls := [] } [] ∧
    (memory.run [MemCall.mem_malloc 1, MemCall.mem_free 4096]
        (memory.reached 9223372036854775808 2 0 0 0 0 { answers := [4096], calls := [] }
          [])).2.calls = [HeapCall.free 4096, HeapCall.malloc 0 4096] ∧
    ((memory.run [MemCall.mem_malloc 1, MemCall.mem_free 4096]
        (memory.reached 9223372036854775808 2 0 0 0 0 { answers := [4096], calls := [] }
          [])).1.mem_malloc
      (memory.run [MemCall.mem_malloc 1, MemCall.mem_free 4096]
        (memory.reached 9223372036854775808 2 0 0 0 0 { answers := [4096], calls := [] }
          [])).2 1).1 = 9223372036854779904 := by
  decide

/-- Claim C20, as stated, fails when `block_size * block_count` overflows
`size_t`: `memory(2^63, 4)` obtains the arena base 4096 for a request of
`2^63 * 4 mod 2^64 = 0` bytes and stores the block addresses
`4096 + k * 2^63 mod 2^64`, `k < 4`, which are 4096 and `4096 + 2^63`, each
twice. Right after construction the small free stack is not duplicate-free, and
three allocations with no release in between hand out the pointer 4096 twice. -/
theorem free_stack_duplicates_when_arena_size_overflows :
    ((memory.construct 9223372036854775808 4 0 0 0 0
        { answers := [4096], calls := [] }).1.free_stack Tier.small).items
      = [4096, 9223372036854779904, 4096, 9223372036854779904] ∧
    ¬ ((memory.construct 9223372036854775808 4 0 0 0 0
        { answers := [4096], calls := [] }).1.free_stack Tier.small).items.Nodup ∧
    memory.disciplined [MemCall.mem_malloc 1, MemCall.mem_malloc 1, MemCall.mem_malloc 1]
      ((memory.construct 9223372036854775808 4 0 0 0 0 { answers := [4096], calls := [] }).1,
        (memory.construct 9223372036854775808 4 0 0 0 0 { answers := [4096], calls := [] }).2,
        []) ∧
    (memory.tracked_run [MemCall.mem_malloc 1, MemCall.mem_malloc 1, MemCall.mem_malloc 1]
      ((memory.construct 9223372036854775808 4 0 0 0 0 { answers := [4096], calls := [] }).1,
        (memory.construct 9223372036854775808 4 0 0 0 0 { answers := [4096], calls := [] }).2,
        [])).2.2 = [4096, 9223372036854779904, 4096] := by
  decide

/-! ## `cHttpsWorkThread::OnAppData`: the value returned for a chunk -/

theorem OnAppData_unit_handled (env : Env) (ucid : Nat) (pkg : cHttpPacket) (bret : Bool)
    (hnc : ¬ (pkg._nprotocol = Protocol.PROTOCOL_WS ∧ pkg._opcode = WS_OP_CLOSE)) :
    OnAppData_unit env ucid pkg bret
      = (some ((handler_result env ucid pkg).getD bret), handler_events env ucid pkg) := by
  unfold OnAppData_unit handler_result handler_events
  cases hp : pkg._nprotocol with
  | PROTOCOL_HTTP => rfl
  | other => rfl
  | PROTOCOL_WS =>
    simp only
    have hc : pkg._opcode ≠ WS_OP_CLOSE := fun e => hnc ⟨hp, e⟩
    by_cases h1 : pkg._opcode ≤ WS_OP_BIN
    · simp only [h1, if_true]
      rfl
    · simp only [h1, if_false, hc]
      by_cases h2 : pkg._opcode = WS_OP_PING
      · simp only [h2, if_true]
        rfl
      · simp only [h2, if_false]
        rfl

theorem getLast_getD_cons (b : Bool) (l : List Bool) (d : Bool) :
    ((b :: l).getLast?).getD d = (l.getLast?).getD b := by
  rw [List.getLast?_cons]
  rfl

/-- The loop of `OnAppData` over units none of which is a close frame, followed
by a parser that asks for more bytes. -/
theorem OnAppData_loop_units (env : Env) (ucid : Nat) (units : List cHttpPacket)
    (tail : List ParseResult) (bret : Bool) (sent : List Event)
    (hnc : ∀ pkg ∈ units,
      ¬ (pkg._nprotocol = Protocol.PROTOCOL_WS ∧ pkg._opcode = WS_OP_CLOSE))
    (htail : ∀ r, tail.head? = some r → r.nr = ParseStatus.he_waitdata) :
    OnAppData_loop env ucid (units.map unit_ready ++ tail) bret sent
      = ((((units.filterMap (handler_result env ucid)).getLast?).getD bret),
          sent ++ (units.map (handler_events env ucid)).flatten) := by
  induction units generalizing bret sent with
  | nil =>
    simp only [List.map_nil, List.nil_append, List.filterMap_nil, List.getLast?_nil,
      Option.getD_none, List.flatten_nil, List.append_nil]
    cases tail with
    | nil => rfl
    | cons r rest =>
      have := htail r rfl
      simp only [OnAppData_loop, this]
  | cons p ps ih =>
    have hp := hnc p (List.mem_cons_self _ _)
    have hps : ∀ pkg ∈ ps,
        ¬ (pkg._nprotocol = Protocol.PROTOCOL_WS ∧ pkg._opcode = WS_OP_CLOSE) :=
      fun pkg h => hnc pkg (List.mem_cons_of_mem _ h)
    simp only [List.map_cons, List.cons_append, OnAppData_loop, unit_ready,
      OnAppData_unit_handled env ucid p bret hp]
    have := ih ((handler_result env ucid p).getD bret) (sent ++ handler_events env ucid p) hps
    simp only [unit_ready] at this
    refine this.trans ?_
    simp only [List.flatten_cons, List.append_assoc, List.filterMap_cons]
    cases hr : handler_result env ucid p with
    | none => simp
    | some b => simp [getLast_getD_cons]

/-- Claim C21: for every chunk in which the parser yields the units `units`,
none of them a close frame, and then asks for more bytes (never reporting
`he_failed`), the value `OnAppData` returns is the result of the handler of the
last unit for which the loop ran a handler, and true when there is no such unit;
in particular a chunk for which the parser asks for more bytes at once returns
true and sends nothing. The events are those of the handlers, in order. A false
result of an earlier unit does not stop the loop: when the last unit has a
handler with result `b`, the value returned is `b` whatever the earlier units
returned. -/
theorem OnAppData_returns_last_handler_result (env : Env) (ucid : Nat)
    (units : List cHttpPacket) (tail : List ParseResult)
    (hnc : ∀ pkg ∈ units,
      ¬ (pkg._nprotocol = Protocol.PROTOCOL_WS ∧ pkg._opcode = WS_OP_CLOSE))
    (htail : ∀ r, tail.head? = some r → r.nr = ParseStatus.he_waitdata) :
    (OnAppData env ucid (units.map unit_ready ++ tail)).1
      = ((units.filterMap (handler_result env ucid)).getLast?).getD true ∧
    (OnAppData env ucid (units.map unit_ready ++ tail)).2
      = (units.map (handler_events env ucid)).flatten ∧
    OnAppData env ucid tail = (true, []) ∧
    (∀ pre last b, units = pre ++ [last] → handler_result env ucid last = some b →
      (OnAppData env ucid (units.map unit_ready ++ tail)).1 = b) := by
  have h := OnAppData_loop_units env ucid units tail true [] hnc htail
  have h0 := OnAppData_loop_units env ucid [] tail true []
    (fun pkg hp => by cases hp) htail
  refine ⟨?_, ?_, ?_, ?_⟩
  · unfold OnAppData
    rw [h]
  · unfold OnAppData
    rw [h]
    simp
  · unfold OnAppData
    simpa using h0
  · intro pre last b hu hb
    unfold OnAppData
    rw [h, hu]
    simp [List.filterMap_append, hb]

/-- Claim C21 at a concrete input: a chunk holding a request with the
unsupported method `POST` and no keep-alive, whose handler returns false after
sending the 400 response, followed by a ping frame, whose handler result is
true. `OnAppData` sends the 400 response and the pong and returns true. -/
theorem OnAppData_returns_last_handler_result_witness :
    handler_result example_env 7 (example_request (cstr "POST") [] none false) = some false ∧
    (OnAppData example_env 7
      ([example_request (cstr "POST") [] none false, example_frame 9 (cstr "abc")].map
          unit_ready
        ++ [{ nr := ParseStatus.he_waitdata, pkg := example_frame 0 [] }])).1 = true ∧
    (OnAppData example_env 7
      ([example_request (cstr "POST") [] none false, example_frame 9 (cstr "abc")].map
          unit_ready
        ++ [{ nr := ParseStatus.he_waitdata, pkg := example_frame 0 [] }])).2
      = [Event.send 7 bad_request_response, Event.send 7 [0x8A, 3, 97, 98, 99]] :=
  ⟨by decide,
   (OnAppData_returns_last_handler_result example_env 7
      [example_request (cstr "POST") [] none false, example_frame 9 (cstr "abc")]
      [{ nr := ParseStatus.he_waitdata, pkg := example_frame 0 [] }]
      (by decide) (by decide)).2.2.2
      [example_request (cstr "POST") [] none false] (example_frame 9 (cstr "abc")) true rfl
      (by decide),
   by decide⟩

end ec
